import Mathlib

/-!
Verification development for the Structured-ASIC back-end flow.

Shallow embedding of the Python sources:
  parse_lib.py      - Liberty leakage analysis and heuristic tie selection
  parse_design.py   - logical DB and netlist-graph builder
  placer.py         - greedy seeded placer and HPWL cost
  optimized.py      - simulated-annealing refiner
  cts_htree.py      - H-tree clock-tree synthesis netlist rewrite
  power_down.py     - power-down ECO

Numbers are modelled by the rationals.  Python float comparisons and
arithmetic used by the algorithms are order/field operations, faithfully
mirrored on the rationals; the single transcendental call `math.exp` in the
Metropolis criterion is modelled by `Real.exp`.  Distance minimisation with
`sqrt` is modelled by comparing squared distances (`sqrt` is strictly
monotone on nonnegative reals, so every `<` comparison of distances agrees).
Python dictionaries are modelled by association lists in insertion order,
and the in-place mutation of the fabric/logical databases by explicit state
passing.

The file is organised as: all definitions first, then all lemmas and the
claim theorems.
-/

namespace StructuredAsic

/-!  # Definitions -/

/-!  ## String helpers -/

/-- Python substring test `sub in hay` on character lists. -/
def listSub : List Char → List Char → Bool
  | _, [] => false
  | sub, c :: rest => (sub.isPrefixOf (c :: rest)) || listSub sub rest

/-- Python substring test `sub in hay`: empty needle is always contained. -/
def strIn (sub hay : String) : Bool :=
  sub.data.isEmpty || listSub sub.data hay.data

/-- Python `str.lower()` (ASCII). -/
def strLower (s : String) : String := String.mk (s.data.map Char.toLower)

/-- Source: `any(g in cell_lower for g in pats)`. -/
def anyIn (pats : List String) (hay : String) : Bool :=
  pats.any (fun p => strIn p hay)

/-!  ## parse_lib.py -/

/-- Source: `parse_lib.heuristic_tie_selection`: name-based tie selection used when
Liberty leakage data is unavailable.  Branches in source order; note the
Python operator precedence in the AOI/OAI tests
(`"aoi" in s or "o" in s and "a" in s` parses as `aoi or (o and a)`). -/
def heuristic_tie_selection (cell_type : String) : String :=
  let cl := strLower cell_type
  if anyIn ["and2", "and3", "and4"] cl then "HI"
  else if anyIn ["nand2", "nand3", "nand4"] cl then "LO"
  else if anyIn ["or2", "or3", "or4"] cl then "LO"
  else if anyIn ["nor2", "nor3", "nor4"] cl then "HI"
  else if strIn "aoi" cl || (strIn "o" cl && strIn "a" cl) then "LO"
  else if strIn "oai" cl || (strIn "a" cl && strIn "o" cl) then "HI"
  else if strIn "xor" cl || strIn "xnor" cl then "LO"
  else if anyIn ["inv", "buf", "clkbuf"] cl then "LO"
  else "LO"

/-- One entry of the leakage database built by `parse_liberty_leakage`:
only the fields read by `get_optimal_tie_for_cell` / the ECO are kept. -/
structure LeakEntry where
  optimal_tie : Option String
  input_ties : List (String × String)
  min_power : ℚ
  avg_power : ℚ
deriving DecidableEq, Repr

/-- The leakage database, keyed by cell type (dict in insertion order). -/
abbrev LeakDb := List (String × LeakEntry)

/-- Source: `parse_lib.get_optimal_tie_for_cell`: database lookup with `"LO"`
default for a missing `optimal_tie` key, heuristic fallback on `MIXED`
or on a cell type absent from the database. -/
def get_optimal_tie_for_cell (cell_type : String) (leakage_db : LeakDb) : String :=
  match leakage_db.lookup cell_type with
  | some entry =>
      let optimal := entry.optimal_tie.getD "LO"
      if optimal = "MIXED" then heuristic_tie_selection cell_type else optimal
  | none => heuristic_tie_selection cell_type

/-!  ## optimized.py: Metropolis acceptance

`accept_move(delta_cost, temperature)` calls `random.random()` only in its
final branch; the draw is made explicit as the argument `u`, so the source's
"accept with probability exp(-delta/T)" becomes the threshold test
`u < exp(-delta/T)` on a uniform draw. -/

open Classical in
/-- Source: `optimized.accept_move` with the uniform draw `u` made explicit. -/
noncomputable def accept_move (delta_cost temperature u : ℚ) : Bool :=
  if delta_cost < 0 then true
  else if temperature ≤ 0 then false
  else decide (((u : ℝ)) < Real.exp (-(delta_cost : ℝ) / (temperature : ℝ)))

/-!  ## parse_design.py: nets and the netlist graph

A `Net` mirrors the dict `{"name": ..., "connections": [(inst, pin), ...]}`.
The net table is the dict `net_id -> net` in insertion order.  The netlist
graph of networkx is modelled by its edge list: each undirected edge stores
the endpoints, the accumulated `nets` name list and the `net_id` attribute
set at creation.  Node bookkeeping is not modelled (no claim reads it). -/

structure Net where
  name : String
  connections : List (String × String)
deriving DecidableEq, Repr

abbrev Nets := List (ℕ × Net)

structure GEdge where
  u : String
  v : String
  nets : List String
  net_id : ℕ
deriving DecidableEq, Repr

abbrev Graph := List GEdge

/-- Unordered equality of endpoint pairs. -/
def samePair (a b c d : String) : Prop := (a = c ∧ b = d) ∨ (a = d ∧ b = c)

instance (a b c d : String) : Decidable (samePair a b c d) := by
  unfold samePair; infer_instance

/-- Whether edge `e` joins the endpoints `a` and `b`. -/
def sameEdge (e : GEdge) (a b : String) : Prop := samePair e.u e.v a b

instance (e : GEdge) (a b : String) : Decidable (sameEdge e a b) := by
  unfold sameEdge; infer_instance

/-- Distinct edges of an `nx.Graph` join distinct unordered pairs. -/
def pairDisjoint (e₁ e₂ : GEdge) : Prop := ¬ samePair e₁.u e₁.v e₂.u e₂.v

/-- The edge list of an `nx.Graph` never stores two edges for one pair. -/
def uniquePairs (g : Graph) : Prop := g.Pairwise pairDisjoint

/-- Source: `G[u][v]` lookup of networkx (first matching edge). -/
def lookupEdge : Graph → String → String → Option GEdge
  | [], _, _ => none
  | e :: es, a, b => if sameEdge e a b then some e else lookupEdge es a b

/-- The `add_edge`-or-append-name step shared by `_build_netlist_graph` and
the CTS graph update:
`if not G.has_edge(u, v): G.add_edge(u, v, nets=[name], net_id=id)`
`else: G[u][v]["nets"].append(name)`. -/
def addEdge : Graph → String → String → String → ℕ → Graph
  | [], a, b, nm, id => [⟨a, b, [nm], id⟩]
  | e :: es, a, b, nm, id =>
      if sameEdge e a b then { e with nets := e.nets ++ [nm] } :: es
      else e :: addEdge es a b nm id

/-- The `for i ... for j in range(i+1, ...)` pair enumeration. -/
def pairsOf : List String → List (String × String)
  | [] => []
  | x :: xs => xs.map (fun y => (x, y)) ++ pairsOf xs

/-- Fold `addEdge` over a pair list. -/
def addPairs (g : Graph) (nm : String) (id : ℕ) : List (String × String) → Graph
  | [] => g
  | p :: ps => addPairs (addEdge g p.1 p.2 nm id) nm id ps

/-- Edges contributed by one net (clique over its endpoints), skipping nets
with at most one endpoint. -/
def addNetEdges (g : Graph) (id : ℕ) (net : Net) : Graph :=
  let nodes := net.connections.map Prod.fst
  if nodes.length ≤ 1 then g else addPairs g net.name id (pairsOf nodes)

def buildGraphAux (g : Graph) : Nets → Graph
  | [] => g
  | n :: rest => buildGraphAux (addNetEdges g n.1 n.2) rest

/-- Source: `parse_design._build_netlist_graph`, restricted to its edge list. -/
def build_netlist_graph (nets : Nets) : Graph := buildGraphAux [] nets

/-- Source: `cts_htree.remove_old_clock_connections`, graph part: collect every edge
whose `net_id` attribute equals the old clock net id, then remove them. -/
def removeClockEdges (g : Graph) (clockId : ℕ) : Graph :=
  g.filter (fun e => decide (e.net_id ≠ clockId))

/-- Whether a net would generate the edge `(a, b)`: the net has at least two
endpoints and some enumerated endpoint pair matches `(a, b)` unordered. -/
def connectsPair (net : Net) (a b : String) : Prop :=
  1 < (net.connections.map Prod.fst).length ∧
    ∃ p ∈ pairsOf (net.connections.map Prod.fst), samePair p.1 p.2 a b

instance (net : Net) (a b : String) : Decidable (connectsPair net a b) := by
  unfold connectsPair; infer_instance

/-- The first net in table order that connects the pair `(a, b)`. -/
def firstConnecting (nets : Nets) (a b : String) : Option ℕ :=
  (nets.find? (fun n => decide (connectsPair n.2 a b))).map Prod.fst

/-!  ## placer.py

A fabric slot is one `cell` dict of `cells_by_tile`; the fabric is the
concatenation of the per-tile slot lists in dict iteration order (the
placer's scans visit every slot of every tile).  The absent `"placed"` key
is `none`.  The logical cell table is the dict `name -> type` (the placer
reads only names and types), the netlist graph is its neighbor function.
Placement entries are the 4-tuples `(slot_name, cell_type, x, y)` built by
`assign_cell_to_nearest_slot` and `place_pins`.  `ValueError`/`TypeError`
exceptions become `Except.error`; since `fabric_db` is mutated in place in
the source, the fabric state is returned alongside the result so that the
caller-visible mutations of a failed run stay observable. -/

structure Slot where
  name : String
  cell_type : String
  x : ℚ
  y : ℚ
  placed : Option String
deriving DecidableEq, Repr

abbrev Fabric := List Slot

/-- A placement-dict value `(slot_name, cell_type, x, y)`. -/
abbrev PEntry := String × String × ℚ × ℚ

abbrev Placement := List (String × PEntry)

/-- Source: `logical_db["cells"].get(cell_name, {}).get("type", "")`. -/
def requiredType (cells : List (String × String)) (cell_name : String) : String :=
  (cells.lookup cell_name).getD ""

/-- The slot scan of `assign_cell_to_nearest_slot`: visit every slot, keep
the first strict minimiser among free slots of the required type.  The
source compares `sqrt(dx*dx+dy*dy)` values with `<`; the squared distances
`dx*dx+dy*dy` are compared here (`sqrt` is strictly monotone, so every
comparison agrees).  Returns the index, the slot and its squared distance. -/
def scanBest (required : String) (target : ℚ × ℚ) :
    Fabric → ℕ → Option (ℕ × Slot × ℚ) → Option (ℕ × Slot × ℚ)
  | [], _, best => best
  | s :: rest, i, best =>
      let d := (s.x - target.1) * (s.x - target.1) +
        (s.y - target.2) * (s.y - target.2)
      let best' :=
        if s.placed = none ∧ s.cell_type = required then
          match best with
          | none => some (i, s, d)
          | some (j, s₀, d₀) =>
              if d < d₀ then some (i, s, d) else some (j, s₀, d₀)
        else best
      scanBest required target rest (i + 1) best'

/-- Source: `placer.assign_cell_to_nearest_slot`: find the nearest free slot of the
required type, mark it placed (`best_cell_slot["placed"] = cell_name`), and
return the `(slot_name, cell_type, x, y)` tuple; raises `ValueError` when
no free compatible slot exists. -/
def assign_cell_to_nearest_slot (fabric : Fabric) (cell_name : String)
    (target : ℚ × ℚ) (cells : List (String × String)) :
    Except String (Fabric × PEntry) :=
  let required := requiredType cells cell_name
  match scanBest required target fabric 0 none with
  | none => .error ("No free slots available for cell " ++ cell_name ++
      " of type " ++ required)
  | some (i, s, _) =>
      .ok (fabric.set i { s with placed := some cell_name },
        (s.name, s.cell_type, s.x, s.y))

/-- The `x` coordinate (tuple index 2) of a placement entry; the `none`
branch is unreachable at every use (lookups are guarded by `isSome`). -/
def entryX (o : Option PEntry) : ℚ :=
  match o with
  | some e => e.2.2.1
  | none => 0

/-- The `y` coordinate (tuple index 3) of a placement entry. -/
def entryY (o : Option PEntry) : ℚ :=
  match o with
  | some e => e.2.2.2
  | none => 0

/-- Source: `placer.barycenter_position`: mean position of the already placed
neighbors, `None` when no neighbor is placed. -/
def barycenter_position (nbrs : String → List String) (cell_name : String)
    (placement : Placement) : Option (ℚ × ℚ) :=
  let pn := (nbrs cell_name).filter (fun n => (placement.lookup n).isSome)
  if pn.isEmpty then none
  else
    some ((pn.map (fun n => entryX (placement.lookup n))).sum / pn.length,
      (pn.map (fun n => entryY (placement.lookup n))).sum / pn.length)

/-- Source: `placer.place_pins` loop body over the combined port list. -/
def placePinsGo (pins : List (String × (ℚ × ℚ))) :
    List String → Placement → Except String Placement
  | [], acc => .ok acc
  | p :: rest, acc =>
      match pins.lookup p with
      | none => .error ("Port " ++ p ++ " not found in pin_placement!")
      | some xy => placePinsGo pins rest (acc ++ [(p, (p, "PIN", xy.1, xy.2))])

/-- Source: `placer.place_pins`: every input then output port gets the pseudo-entry
`(port, "PIN", x_um, y_um)` from the pin ring. -/
def place_pins (pins : List (String × (ℚ × ℚ))) (ports : List String) :
    Except String Placement :=
  placePinsGo pins ports []

/-- Whether a cell has a port neighbor (the seed test of stage 2). -/
def seedPred (nbrs : String → List String) (pinNodes : List String)
    (c : String) : Bool :=
  (nbrs c).any (fun n => pinNodes.contains n)

/-- Number of already placed neighbors (`len(placed_neighbors)`). -/
def countPlacedNbrs (nbrs : String → List String) (placement : Placement)
    (c : String) : ℕ :=
  ((nbrs c).filter (fun n => (placement.lookup n).isSome)).length

/-- The `ranked` list of the grow stage: each unplaced cell with at least
one placed neighbor, paired with its placed-neighbor count. -/
def growRanked (nbrs : String → List String) (placement : Placement)
    (remaining : List String) : List (ℕ × String) :=
  remaining.filterMap (fun c =>
    let pn := countPlacedNbrs nbrs placement c
    if 0 < pn then some (pn, c) else none)

/-- Lexicographic order on `(count, name)` pairs: the comparison used by
Python's tuple sort in `ranked.sort(reverse=True)`. -/
def rankLt (a b : ℕ × String) : Prop := a.1 < b.1 ∨ (a.1 = b.1 ∧ a.2 < b.2)

instance (a b : ℕ × String) : Decidable (rankLt a b) := by
  unfold rankLt; infer_instance

/-- Source: `ranked.sort(reverse=True); ranked[0]`: the lexicographic maximum of the
ranked list (the entries are pairwise distinct in the second component, so
the descending sort puts the unique maximum first). -/
def pickMax : List (ℕ × String) → Option (ℕ × String)
  | [] => none
  | r :: rs => some (rs.foldl (fun acc p => if rankLt acc p then p else acc) r)

/-- Stage-2 seed loop: place each seed cell at the barycenter of its placed
neighbors.  A `none` barycenter mirrors the `TypeError` the source would
raise on a `None` target. -/
def placeSeq (cells : List (String × String)) (nbrs : String → List String) :
    Fabric → Placement → List String → Fabric × Except String Placement
  | fabric, placement, [] => (fabric, .ok placement)
  | fabric, placement, c :: rest =>
      match barycenter_position nbrs c placement with
      | none => (fabric, .error "TypeError: barycenter of unplaced cell")
      | some pos =>
          match assign_cell_to_nearest_slot fabric c pos cells with
          | .error e => (fabric, .error e)
          | .ok fe => placeSeq cells nbrs fe.1 (placement ++ [(c, fe.2)]) rest

/-- Stage-3 grow loop.  Each pass either places the `pickMax` cell of the
`ranked` list at its neighbor barycenter, or — when no unplaced cell has a
placed neighbor — pops a remaining cell (`set.pop()`, modelled as the head)
and places it at `(0, 0)`.  The fuel argument equals the number of
remaining cells at the top-level call; each pass removes exactly one cell,
so the `fuel = 0` error branch is unreachable. -/
def growLoop (cells : List (String × String)) (nbrs : String → List String) :
    ℕ → Fabric → Placement → List String → Fabric × Except String Placement
  | 0, fabric, placement, remaining =>
      match remaining with
      | [] => (fabric, .ok placement)
      | _ :: _ => (fabric, .error "unreachable: grow fuel exhausted")
  | fuel + 1, fabric, placement, remaining =>
      match remaining with
      | [] => (fabric, .ok placement)
      | _ :: _ =>
          match pickMax (growRanked nbrs placement remaining) with
          | some kc =>
              match barycenter_position nbrs kc.2 placement with
              | none => (fabric, .error "TypeError: barycenter of unplaced cell")
              | some pos =>
                  match assign_cell_to_nearest_slot fabric kc.2 pos cells with
                  | .error e => (fabric, .error e)
                  | .ok fe =>
                      growLoop cells nbrs fuel fe.1
                        (placement ++ [(kc.2, fe.2)]) (remaining.erase kc.2)
          | none =>
              match remaining with
              | [] => (fabric, .ok placement)
              | c :: rest =>
                  match assign_cell_to_nearest_slot fabric c (0, 0) cells with
                  | .error e => (fabric, .error e)
                  | .ok fe =>
                      growLoop cells nbrs fuel fe.1
                        (placement ++ [(c, fe.2)]) rest

/-- Source: `placer.initial_placement`: fix pins, seed the cells with port
neighbors, then grow.  Returns the final fabric state next to the result
(the source mutates `fabric_db` in place, so a failed run leaves its
partial slot claims visible to the caller). -/
def initial_placement (fabric : Fabric) (cells : List (String × String))
    (nbrs : String → List String) (pins : List (String × (ℚ × ℚ)))
    (inputs outputs : List String) : Fabric × Except String Placement :=
  match place_pins pins (inputs ++ outputs) with
  | .error e => (fabric, .error e)
  | .ok pl0 =>
      let pinNodes := pl0.map Prod.fst
      let seeds := (cells.filter (fun c => seedPred nbrs pinNodes c.1)).map Prod.fst
      match placeSeq cells nbrs fabric pl0 seeds with
      | (f1, .error e) => (f1, .error e)
      | (f1, .ok pl1) =>
          let remaining :=
            (cells.filter (fun c => ! seedPred nbrs pinNodes c.1)).map Prod.fst
          growLoop cells nbrs remaining.length f1 pl1 remaining

/-!  ## cts_htree.py: logical DB and netlist rewrite

The logical DB keeps the three tables the CTS rewrite touches: `cells`
(`name -> {type, pins}`), `nets` (`id -> {name, connections}`) and
`cells_by_type`.  Python dict update semantics on association lists:
assignment to an existing key rewrites it in place, a new key is appended.
The clock tree is the nested dict produced by `build_htree_recursive`,
kept as a rose tree: `buffer` is `none` for a virtual node, `sinks` is the
`sink_logical_names` list (absent, i.e. empty, on internal nodes). -/

abbrev Pins := List (String × ℕ)

structure LCell where
  ctype : String
  pins : Pins
deriving DecidableEq, Repr

abbrev Cells := List (String × LCell)

structure LogicalDb where
  cells : Cells
  nets : Nets
  cells_by_type : List (String × List String)
deriving DecidableEq, Repr

mutual
inductive CTree where
  | node (buffer : Option (String × String)) (sinks : List String)
      (children : CForest)
deriving DecidableEq
inductive CForest where
  | nil
  | cons (t : CTree) (ts : CForest)
deriving DecidableEq
end

/-- Python `del pins[k]` (association-list keys are unique). -/
def pinsDel (ps : Pins) (k : String) : Pins :=
  ps.filter (fun p => decide (p.1 ≠ k))

/-- Python `pins[k] = v`: rewrite an existing key in place, append new. -/
def pinsSet (ps : Pins) (k : String) (v : ℕ) : Pins :=
  if (ps.lookup k).isSome then
    ps.map (fun p => if p.1 = k then (p.1, v) else p)
  else ps ++ [(k, v)]

/-- Rewrite the value of an existing key of the cell table. -/
def cellsModify (cs : Cells) (name : String) (f : LCell → LCell) : Cells :=
  cs.map (fun c => if c.1 = name then (c.1, f c.2) else c)

/-- Python `cells[name] = cell` (dict assignment). -/
def cellsSet (cs : Cells) (name : String) (cell : LCell) : Cells :=
  if (cs.lookup name).isSome then
    cs.map (fun c => if c.1 = name then (c.1, cell) else c)
  else cs ++ [(name, cell)]

/-- Rewrite one net's connections list in place. -/
def netsModifyConnections (ns : Nets) (id : ℕ)
    (f : List (String × String) → List (String × String)) : Nets :=
  ns.map (fun p => if p.1 = id then
    (p.1, { p.2 with connections := f p.2.connections }) else p)

/-- Source: `max(self.logical_db['nets'].keys())` with default 0 on empty. -/
def maxNetId (ns : Nets) : ℕ := ns.foldl (fun m p => max m p.1) 0

/-- One step of the pin-deletion loop of `remove_old_clock_connections`:
for an `(inst, pin)` entry on the old clock net (other than the clock port
itself) delete the pin from the cell when it still carries the clock net. -/
def removePinStep (clock_net : String) (clock_net_id : ℕ) (cs : Cells)
    (conn : String × String) : Cells :=
  if conn.1 = clock_net then cs
  else if (cs.lookup conn.1).isSome then
    cellsModify cs conn.1 (fun cell =>
      if cell.pins.lookup conn.2 = some clock_net_id then
        { cell with pins := pinsDel cell.pins conn.2 }
      else cell)
  else cs

/-- The pin-deletion loop of `remove_old_clock_connections`. -/
def removeClockPins (cells : Cells) (clock_net : String) (clock_net_id : ℕ)
    (conns : List (String × String)) : Cells :=
  conns.foldl (removePinStep clock_net clock_net_id) cells

/-- Source: `cts_htree.remove_old_clock_connections`: skip when the clock net id is
falsy (`None`/0) or unknown; otherwise clear the matching cell pins, reset
the net to the single port connection and drop the clock edges. -/
def remove_old_clock_connections (db : LogicalDb) (g : Graph)
    (clock_net : String) (clock_net_id : ℕ) : LogicalDb × Graph :=
  if clock_net_id = 0 then (db, g)
  else
    match db.nets.lookup clock_net_id with
    | none => (db, g)
    | some old_net =>
        ({ db with
            cells := removeClockPins db.cells clock_net clock_net_id
              old_net.connections,
            nets := netsModifyConnections db.nets clock_net_id
              (fun _ => [(clock_net, "PORT")]) },
          removeClockEdges g clock_net_id)

/-- A buffer record queued in `buffers_to_add`. -/
structure BufRec where
  name : String
  btype : String
  in_net : ℕ
  out_net : ℕ
deriving DecidableEq, Repr

/-- A queued connection `(inst_name, pin_name, net_id)`. -/
abbrev Conn := String × String × ℕ

/-- Source: `clock_pin = 'C' if 'C' in cell.get('pins', {}) else 'CLK'`. -/
def clockPinOf (cells : Cells) (s : String) : String :=
  match cells.lookup s with
  | some cell => if (cell.pins.lookup "C").isSome then "C" else "CLK"
  | none => "CLK"

/-- Sink connections of one tree node: each sink present in the cell table
gets `(sink, clock_pin, net)`. -/
def sinkConnsOf (cells : Cells) (sinks : List String) (net : ℕ) : List Conn :=
  sinks.filterMap (fun s =>
    if (cells.lookup s).isSome then some (s, clockPinOf cells s, net)
    else none)

mutual
/-- Source: `traverse_tree`: thread `net_counter`, collect `buffers_to_add` and
`connections_to_add` in source order (buffer A/Y first, then the children,
then this node's sink connections); a virtual node passes `parent_net`
through. -/
def traverse_tree (cells : Cells) : CTree → ℕ → ℕ →
    ℕ × List BufRec × List Conn
  | CTree.node buffer sinks children, parent_net, counter =>
      match buffer with
      | some bnbt =>
          let out := counter
          let rec₁ := traverse_forest cells children out (counter + 1)
          (rec₁.1,
           ⟨bnbt.1, bnbt.2, parent_net, out⟩ :: rec₁.2.1,
           (bnbt.1, "A", parent_net) :: (bnbt.1, "Y", out) ::
             (rec₁.2.2 ++ sinkConnsOf cells sinks out))
      | none =>
          let rec₁ := traverse_forest cells children parent_net counter
          (rec₁.1, rec₁.2.1, rec₁.2.2 ++ sinkConnsOf cells sinks parent_net)

def traverse_forest (cells : Cells) : CForest → ℕ → ℕ →
    ℕ × List BufRec × List Conn
  | CForest.nil, _, counter => (counter, [], [])
  | CForest.cons t ts, parent_net, counter =>
      let r₁ := traverse_tree cells t parent_net counter
      let r₂ := traverse_forest cells ts parent_net r₁.1
      (r₂.1, r₁.2.1 ++ r₂.2.1, r₁.2.2 ++ r₂.2.2)
end

/-- Add the queued buffers to the cell table
(`pins = {A: in_net, Y: out_net}`). -/
def addBuffers (cells : Cells) (bufs : List BufRec) : Cells :=
  bufs.foldl (fun cs b =>
    cellsSet cs b.name ⟨b.btype, [("A", b.in_net), ("Y", b.out_net)]⟩) cells

/-- Add the queued buffers to `cells_by_type`. -/
def addBuffersCbt (cbt : List (String × List String)) (bufs : List BufRec) :
    List (String × List String) :=
  bufs.foldl (fun m b =>
    if (m.lookup b.btype).isSome then
      m.map (fun p => if p.1 = b.btype then (p.1, p.2 ++ [b.name]) else p)
    else m ++ [(b.btype, [b.name])]) cbt

/-- One step of collecting the keys of the `net_connections` defaultdict. -/
def connKeyStep (acc : List ℕ) (c : Conn) : List ℕ :=
  if acc.contains c.2.2 then acc else acc ++ [c.2.2]

/-- The keys of the `net_connections` defaultdict in first-appearance
order. -/
def connKeys (conns : List Conn) : List ℕ :=
  conns.foldl connKeyStep []

/-- The `(inst, pin)` group of one net id, in queue order. -/
def connGroup (conns : List Conn) (id : ℕ) : List (String × String) :=
  (conns.filter (fun c => decide (c.2.2 = id))).map (fun c => (c.1, c.2.1))

/-- One queued pin write `cells[inst].pins[pin] = net_id` (missing
instances are skipped). -/
def pinUpdateStep (cs : Cells) (c : Conn) : Cells :=
  if (cs.lookup c.1).isSome then
    cellsModify cs c.1 (fun cell =>
      { cell with pins := pinsSet cell.pins c.2.1 c.2.2 })
  else cs

/-- The per-connection pin writes, performed in queue order. -/
def applyPinUpdates (cells : Cells) (conns : List Conn) : Cells :=
  conns.foldl pinUpdateStep cells

/-- One net-table update: create the net if missing (named `clk_net_{id}`)
and extend its connections with its group. -/
def netUpdateStep (conns : List Conn) (ns₀ : Nets) (id : ℕ) : Nets :=
  let ns₁ := if (ns₀.lookup id).isSome then ns₀
    else ns₀ ++ [(id, ⟨"clk_net_" ++ toString id, []⟩)]
  netsModifyConnections ns₁ id (fun cs => cs ++ connGroup conns id)

/-- Create missing nets and extend each net's connections with its
group. -/
def applyNetUpdates (ns : Nets) (conns : List Conn) : Nets :=
  (connKeys conns).foldl (netUpdateStep conns) ns

/-- The clique edges added to the netlist graph for every new or extended
net (reads the net name from the updated net table). -/
def applyGraphUpdates (g : Graph) (ns : Nets) (conns : List Conn) : Graph :=
  (connKeys conns).foldl (fun g₀ id =>
    let nodeList := (connGroup conns id).map Prod.fst
    if nodeList.length ≤ 1 then g₀
    else
      let netName := match ns.lookup id with
        | some n => n.name
        | none => ""
      addPairs g₀ netName id (pairsOf nodeList)) g

/-- Source: `cts_htree.update_logical_db_and_graph` on a built clock tree: remove
the old clock connections, traverse the tree (fresh net ids from
`max_existing + 1`), add the buffers, apply the pin writes, extend the net
table and rebuild the graph edges. -/
def update_logical_db_and_graph (db : LogicalDb) (g : Graph)
    (clock_net : String) (clock_net_id : ℕ) (tree : CTree) :
    LogicalDb × Graph :=
  let rem := remove_old_clock_connections db g clock_net clock_net_id
  let db₁ := rem.1
  let tr := traverse_tree db₁.cells tree clock_net_id (maxNetId db₁.nets + 1)
  let cells₂ := addBuffers db₁.cells tr.2.1
  let cbt₂ := addBuffersCbt db₁.cells_by_type tr.2.1
  let cells₃ := applyPinUpdates cells₂ tr.2.2
  let nets₃ := applyNetUpdates db₁.nets tr.2.2
  let g₂ := applyGraphUpdates rem.2 nets₃ tr.2.2
  (⟨cells₃, nets₃, cbt₂⟩, g₂)

/-- The output-net ids of the buffers queued in `buffers_to_add` by the
CTS run (the traversal performed by `update_logical_db_and_graph` on the
database left by `remove_old_clock_connections`). -/
def ctsBufferOutNets (db : LogicalDb) (g : Graph) (clock_net : String)
    (clock_net_id : ℕ) (tree : CTree) : List ℕ :=
  let db₁ := (remove_old_clock_connections db g clock_net clock_net_id).1
  ((traverse_tree db₁.cells tree clock_net_id
      (maxNetId db₁.nets + 1)).2.1).map BufRec.out_net

/-- The root buffer name (the tree observer used by the C2 statement). -/
def rootBufName : CTree → String
  | CTree.node (some bnbt) _ _ => bnbt.1
  | CTree.node none _ _ => ""

/-- Whether the root node claimed a physical buffer. -/
def rootHasBuffer : CTree → Prop
  | CTree.node buffer _ _ => buffer.isSome

mutual
/-- Every node of the tree claimed a physical buffer. -/
def allBuffered : CTree → Prop
  | CTree.node buffer _ children => buffer.isSome ∧ allBufferedF children
def allBufferedF : CForest → Prop
  | CForest.nil => True
  | CForest.cons t ts => allBuffered t ∧ allBufferedF ts
end

mutual
/-- All sink names of the tree, in traversal order. -/
def allSinks : CTree → List String
  | CTree.node _ sinks children => allSinksF children ++ sinks
def allSinksF : CForest → List String
  | CForest.nil => []
  | CForest.cons t ts => allSinks t ++ allSinksF ts
end

mutual
/-- All buffer names of the tree. -/
def bufNames : CTree → List String
  | CTree.node buffer _ children =>
      (match buffer with
       | some bnbt => [bnbt.1]
       | none => []) ++ bufNamesF children
def bufNamesF : CForest → List String
  | CForest.nil => []
  | CForest.cons t ts => bufNames t ++ bufNamesF ts
end

/-!  ## power_down.py: the power-down ECO

The fabric database is kept as its `fabric.cells_by_tile` table (tile key →
fabric cell records) plus the optional `cell_library` pin table; the
placement map is the dict `logical_instance → fabric_cell`.  The report,
meta statistics and file outputs of `run_power_down_eco` are not modelled:
the claims read only the resulting `cells` / `nets` / `cells_by_type`. -/

/-- A fabric cell record as read by the ECO (`name` / `cell_type`). -/
structure FCell where
  name : String
  cell_type : String
deriving DecidableEq, Repr

/-- Source: `fabric_db["fabric"]["cells_by_tile"]`. -/
abbrev CellsByTile := List (String × List FCell)

/-- Source: `get_cell_input_pins`'s cell-library table: type → (pin, direction). -/
abbrev CellLibrary := List (String × List (String × String))

/-- Source: `power_down.is_macro`. -/
def is_macro (cell_type : String) : Bool :=
  anyIn ["dfbbp", "sram", "regfile", "macro", "dffram", "fifo"]
    (strLower cell_type)

/-- Source: `power_down.is_infrastructure`. -/
def is_infrastructure (cell_type : String) : Bool :=
  anyIn ["tap", "decap", "conb", "fill", "diode", "antenna", "endcap",
    "welltap"] (strLower cell_type)

/-- Source: `power_down.get_cell_input_pins`: cell-library lookup first, then the
name-pattern fallback ladder, else the empty list. -/
def get_cell_input_pins (cell_type : String)
    (cell_library : CellLibrary) : List String :=
  let fromLib := match cell_library.lookup cell_type with
    | some pins => (pins.filter (fun p =>
        p.2 = "input" || p.2 = "INPUT" || p.2 = "in")).map Prod.fst
    | none => []
  if fromLib.isEmpty = false then fromLib
  else
    let cl := strLower cell_type
    if anyIn ["nand2", "nor2", "and2", "or2", "xor2", "xnor2"] cl then
      ["A", "B"]
    else if anyIn ["nand3", "nor3", "and3", "or3"] cl then ["A", "B", "C"]
    else if anyIn ["nand4", "nor4", "and4", "or4"] cl then
      ["A", "B", "C", "D"]
    else if anyIn ["inv", "buf", "clkbuf"] cl then ["A"]
    else if strIn "mux2" cl then ["A0", "A1", "S"]
    else if strIn "mux4" cl then ["A0", "A1", "A2", "A3", "S0", "S1"]
    else if strIn "dff" cl || strIn "dlatch" cl then ["D"]
    else []

/-- Source: `power_down.get_input_tie_states`: the per-input tie map from Liberty
when present and non-empty, else the single `__summary__` fallback. -/
def get_input_tie_states (cell_type : String)
    (leakage_db : LeakDb) : List (String × String) :=
  match leakage_db.lookup cell_type with
  | some entry =>
      if entry.input_ties.isEmpty = false then entry.input_ties
      else [("__summary__", get_optimal_tie_for_cell cell_type leakage_db)]
  | none => [("__summary__", get_optimal_tie_for_cell cell_type leakage_db)]

/-- Python `nets[id] = net` (dict assignment). -/
def netsSet (ns : Nets) (id : ℕ) (net : Net) : Nets :=
  if (ns.lookup id).isSome then
    ns.map (fun p => if p.1 = id then (p.1, net) else p)
  else ns ++ [(id, net)]

/-- Python `cells_by_type.setdefault(t, []).append(n)`. -/
def cbtAppend (cbt : List (String × List String)) (t n : String) :
    List (String × List String) :=
  if (cbt.lookup t).isSome then
    cbt.map (fun p => if p.1 = t then (p.1, p.2 ++ [n]) else p)
  else cbt ++ [(t, [n])]

/-- Source: `power_down.identify_unused_cells`: per tile, the fabric cells that are
neither macros, infrastructure, placed, nor present in the logical
netlist; tiles with no such cell get no entry. -/
def identify_unused_cells (db : LogicalDb) (cells_by_tile : CellsByTile)
    (placement_map : List (String × String)) : CellsByTile :=
  cells_by_tile.foldl (fun acc tile =>
    let unused := tile.2.filter (fun c =>
      ! is_macro c.cell_type && ! is_infrastructure c.cell_type &&
      !placement_map.any (fun p => p.2 = c.name) &&
      !(db.cells.lookup c.name).isSome)
    if unused.isEmpty then acc else acc ++ [(tile.1, unused)]) []

/-- Source: `power_down.claim_tie_cells` with `max_ties_per_tile = 1`: for each
tile holding unused logic, claim the first `conb_1` cell that is neither
in the netlist nor placed; the claimed cell serves both HI and LO rails. -/
def claim_tie_cells (cells_by_tile : CellsByTile)
    (unused_by_tile : CellsByTile) (db : LogicalDb)
    (placement_map : List (String × String)) : List (String × String) :=
  (unused_by_tile.foldl (fun acc tile =>
    if unused_by_tile.length ≤ acc.2 then acc
    else
      let tcells := match cells_by_tile.lookup tile.1 with
        | some l => l
        | none => []
      match tcells.find? (fun c =>
          strIn "conb_1" (strLower c.cell_type) &&
          !((db.cells.lookup c.name).isSome ||
            placement_map.any (fun p => p.2 = c.name))) with
      | some c => (acc.1 ++ [(tile.1, c.name)], acc.2 + 1)
      | none => acc) (([], 0) : List (String × String) × ℕ)).1

/-- One step of the tie-cell insertion loop of `add_tie_connections`: add
the claimed `conb_1` to the netlist when missing, then create the HI and
LO output nets (ids `ctr+1`, `ctr+2`) on its pins. -/
def tieCellStep
    (st : Cells × Nets × List (String × List String) × ℕ ×
      List (String × ℕ × ℕ)) (tc : String × String) :
    Cells × Nets × List (String × List String) × ℕ ×
      List (String × ℕ × ℕ) :=
  match st with
  | (cells, nets, cbt, ctr, tieNets) =>
      let nm := tc.2
      let fresh := decide (nm ≠ "") && !(cells.lookup nm).isSome
      let cells₁ := if fresh then
          cells ++ [(nm, ⟨"sky130_fd_sc_hd__conb_1", []⟩)]
        else cells
      let cbt₁ := if fresh then cbtAppend cbt "sky130_fd_sc_hd__conb_1" nm
        else cbt
      let hi := ctr + 1
      let cells₂ := if (cells₁.lookup nm).isSome then
          cellsModify cells₁ nm (fun c =>
            { c with pins := pinsSet c.pins "HI" hi })
        else cells₁
      let nets₁ := netsSet nets hi ⟨"tie_hi_" ++ tc.1, [(nm, "HI")]⟩
      let lo := ctr + 2
      let cells₂a := if !(cells₂.lookup nm).isSome then
          cells₂ ++ [(nm, ⟨"sky130_fd_sc_hd__conb_1", []⟩)]
        else cells₂
      let cbt₂ := if !(cells₂.lookup nm).isSome then
          cbtAppend cbt₁ "sky130_fd_sc_hd__conb_1" nm
        else cbt₁
      let cells₃ := if (cells₂a.lookup nm).isSome then
          cellsModify cells₂a nm (fun c =>
            { c with pins := pinsSet c.pins "LO" lo })
        else cells₂a
      let nets₂ := netsSet nets₁ lo ⟨"tie_lo_" ++ tc.1, [(nm, "LO")]⟩
      (cells₃, nets₂, cbt₂, lo, tieNets ++ [(tc.1, hi, lo)])

/-- Tying one unused cell inside a tile: skip the claimed tie cell itself,
macros, infrastructure, unknown pin lists and cells already in the
netlist; otherwise add the cell and wire each input to the optimal rail
(non-HI/LO tie states fall back to LO). -/
def tieUnusedCellStep (cell_library : CellLibrary) (leakage_db : LeakDb)
    (tieName : String) (hi lo : ℕ)
    (st : Cells × Nets × List (String × List String)) (c : FCell) :
    Cells × Nets × List (String × List String) :=
  if c.name = tieName then st
  else if is_macro c.cell_type || is_infrastructure c.cell_type then st
  else
    let input_pins := get_cell_input_pins c.cell_type cell_library
    if input_pins.isEmpty then st
    else if (st.1.lookup c.name).isSome then st
    else
      let states := get_input_tie_states c.cell_type leakage_db
      let cells₀ := st.1 ++ [(c.name, ⟨c.cell_type, []⟩)]
      let cbt₀ := cbtAppend st.2.2 c.cell_type c.name
      input_pins.foldl (fun st₂ pin =>
        let pin_tie := match states.lookup pin with
          | some t => t
          | none =>
              match states.lookup "__summary__" with
              | some t => t
              | none => "LO"
        let pin_tie₂ := if pin_tie = "HI" || pin_tie = "LO" then pin_tie
          else "LO"
        let net := if pin_tie₂ = "HI" then hi else lo
        (cellsModify st₂.1 c.name (fun cell =>
            { cell with pins := pinsSet cell.pins pin net }),
         netsModifyConnections st₂.2.1 net (fun cs => cs ++ [(c.name, pin)]),
         st₂.2.2)) (cells₀, st.2.1, cbt₀)

/-- Tying the unused cells of one tile (skipped when the tile claimed no
tie cell or got no tie nets). -/
def tieTileStep (cell_library : CellLibrary) (leakage_db : LeakDb)
    (tie_cells : List (String × String))
    (tie_nets : List (String × ℕ × ℕ))
    (st : Cells × Nets × List (String × List String))
    (tile : String × List FCell) :
    Cells × Nets × List (String × List String) :=
  match tie_cells.lookup tile.1 with
  | none => st
  | some tieName =>
      match tie_nets.lookup tile.1 with
      | none => st
      | some hl =>
          tile.2.foldl
            (tieUnusedCellStep cell_library leakage_db tieName hl.1 hl.2) st

/-- Source: `power_down.add_tie_connections`: insert the claimed `conb_1` cells
with fresh HI/LO output nets, then tie the unused cells tile by tile. -/
def add_tie_connections (db : LogicalDb) (cell_library : CellLibrary)
    (leakage_db : LeakDb) (unused_by_tile : CellsByTile)
    (tie_cells : List (String × String)) : LogicalDb :=
  let ph₁ := tie_cells.foldl tieCellStep
    (db.cells, db.nets, db.cells_by_type, maxNetId db.nets, [])
  let ph₂ := unused_by_tile.foldl
    (tieTileStep cell_library leakage_db tie_cells ph₁.2.2.2.2)
    (ph₁.1, ph₁.2.1, ph₁.2.2.1)
  ⟨ph₂.1, ph₂.2.1, ph₂.2.2⟩

/-- Source: `power_down.run_power_down_eco` (netlist part): identify the unused
fabric cells, claim one `conb_1` per affected tile, rewrite the netlist. -/
def run_power_down_eco (db : LogicalDb) (cells_by_tile : CellsByTile)
    (cell_library : CellLibrary) (leakage_db : LeakDb)
    (placement_map : List (String × String)) : LogicalDb :=
  let unused := identify_unused_cells db cells_by_tile placement_map
  let ties := claim_tie_cells cells_by_tile unused db placement_map
  add_tie_connections db cell_library leakage_db unused ties

/-!  ## optimized.py: the SA move subsystem and main loop

Python placement-dict values are heterogeneous tuples: the greedy placer
emits quadruples `(slot_name, cell_type, x, y)` while `explore` writes
pairs `(new_x, new_y)`; `PTup` models both, `PyVal` a tuple component.
`random` draws are made explicit through an `Rng` stream with a shared
cursor: `random.random()` reads `u`, `random.choice` / `random.sample`
read `pick` (indices are taken modulo the population size, and
`sample(cells, 2)` yields two distinct indices).  The fabric is the
flattened `cells_by_tile` slot list in iteration order.  The in-place
`slot["placed"]` / `fabric_to_logical_map` mutations of `apply_move` are
not modelled: no move function reads them back (`get_available_slots`
tests positions against the placement dict, and
`get_fabric_slot_at_position` tests coordinates only). -/

/-- A Python value appearing as a placement-tuple component. -/
inductive PyVal where
  | str (s : String)
  | num (q : ℚ)
deriving DecidableEq, Repr

/-- A placement-dict value: the greedy quadruple or an explore pair. -/
inductive PTup where
  | quad (slot_name cell_type : String) (x y : ℚ)
  | pair (x y : ℚ)
deriving DecidableEq, Repr

/-- Python `pos[0]`. -/
def ptupFst : PTup → PyVal
  | PTup.quad s _ _ _ => PyVal.str s
  | PTup.pair x _ => PyVal.num x

/-- Python `pos[1]`. -/
def ptupSnd : PTup → PyVal
  | PTup.quad _ t _ _ => PyVal.str t
  | PTup.pair _ y => PyVal.num y

/-- Python `pos[2]`, `pos[3]` — an `IndexError` on a pair. -/
def ptupXY : PTup → Option (ℚ × ℚ)
  | PTup.quad _ _ x y => some (x, y)
  | PTup.pair _ _ => none

/-- Python `==` between a number and a tuple component (`False` across
types). -/
def pyEqNum (q : ℚ) (v : PyVal) : Bool :=
  match v with
  | PyVal.num r => decide (q = r)
  | PyVal.str _ => false

/-- Numeric reading of a tuple component.  A string here would raise
`TypeError` in the source (`sum`/`-` on a str); the branches that read it
are unreachable in the modelled runs, which abort earlier on the failed
slot lookup. -/
def pyNum : PyVal → ℚ
  | PyVal.num q => q
  | PyVal.str _ => 0

/-- The SA placement dict. -/
abbrev SAPlacement := List (String × PTup)

/-- Python `placement_dict[k] = v` (dict assignment). -/
def placementSet (pl : SAPlacement) (k : String) (v : PTup) : SAPlacement :=
  if (pl.lookup k).isSome then
    pl.map (fun p => if p.1 = k then (p.1, v) else p)
  else pl ++ [(k, v)]

/-- The `random` stream: `u` for `random.random()`, `pick` for the index
draws of `random.choice` and `random.sample`. -/
structure Rng where
  u : ℕ → ℚ
  pick : ℕ → ℕ

/-- Source: `random.choice(l)` as an index draw. -/
def rngChoice {α : Type} (r : Rng) (k : ℕ) (l : List α) : Option α :=
  l.get? (r.pick k % l.length)

/-- The second index of `random.sample(l, 2)`: drawn among the remaining
positions, shifted past the first index so the two stay distinct. -/
def sample2Snd (r : Rng) (k n : ℕ) : ℕ :=
  if r.pick k % n ≤ r.pick (k + 1) % (n - 1) then
    r.pick (k + 1) % (n - 1) + 1
  else r.pick (k + 1) % (n - 1)

/-- Source: `random.sample(l, 2)`: two index draws, distinct by construction. -/
def rngSample2 {α : Type} (r : Rng) (k : ℕ) (l : List α) :
    Option (α × α) :=
  match l.get? (r.pick k % l.length) with
  | none => none
  | some a =>
      match l.get? (sample2Snd r k l.length) with
      | none => none
      | some b => some (a, b)

/-- Source: `optimized.SAConfig` (note: the class has NO seed field; `optimized`
draws from the module-global `random` generator). -/
structure SAConfig where
  initial_temp : ℚ := 100
  final_temp : ℚ := 1 / 100
  cooling_rate : ℚ := 97 / 100
  moves_per_temp : ℕ := 100
  max_iterations : ℕ := 15000
  prob_refine : ℚ := 1 / 2
  prob_explore : ℚ := 1 / 2
  w_initial : ℚ := 1 / 2

/-- Source: `optimized.get_available_slots`: every slot whose `(x, y)` position is
not among the placement-dict values — no cell-type filtering. -/
def get_available_slots (fabric : Fabric) (pl : SAPlacement) :
    List (String × ℚ × ℚ) :=
  fabric.filterMap (fun s =>
    if pl.any (fun p => p.2 = PTup.pair s.x s.y) then none
    else some (s.name, s.x, s.y))

/-- Source: `optimized.get_fabric_slot_at_position`: first slot with the given
coordinates. -/
def get_fabric_slot_at_position (fabric : Fabric) (x y : PyVal) :
    Option Slot :=
  fabric.find? (fun s => pyEqNum s.x x && pyEqNum s.y y)

/-- Source: `optimized.get_fabric_dimensions`. -/
def get_fabric_dimensions (fabric : Fabric) : ℚ × ℚ :=
  fabric.foldl (fun acc s => (max acc.1 s.x, max acc.2 s.y)) (0, 0)

/-- Source: `optimized.refine_move`: sample two distinct cells and resolve their
fabric slots from `pos[0]`, `pos[1]`; there is no cell-type test.  A
missing placement key (a Python `KeyError`) yields `none`; on the modelled
runs every logical cell is placed.  Returns the proposal with the advanced
rng cursor. -/
def refine_move (cells : List String) (pl : SAPlacement) (fabric : Fabric)
    (r : Rng) (k : ℕ) :
    Option (String × String × Slot × Slot × PTup × PTup) × ℕ :=
  if cells.length < 2 then (none, k)
  else
    match rngSample2 r k cells with
    | none => (none, k + 2)
    | some cc =>
        (match pl.lookup cc.1, pl.lookup cc.2 with
         | some pos1, some pos2 =>
             match get_fabric_slot_at_position fabric (ptupFst pos1)
                 (ptupSnd pos1),
               get_fabric_slot_at_position fabric (ptupFst pos2)
                 (ptupSnd pos2) with
             | some slot1, some slot2 =>
                 some (cc.1, cc.2, slot1, slot2, pos1, pos2)
             | _, _ => none
         | _, _ => none, k + 2)

/-- Source: `optimized.explore_move`: pick a random cell, window-filter the
available slots, rank them by squared distance to the placed-neighbor
barycenter (or to the current position), and choose among the top 5. -/
def explore_move (pl : SAPlacement) (fabric : Fabric)
    (cells : List String) (nbrs : String → List String)
    (ports : List String) (window : Option ℚ) (r : Rng) (k : ℕ) :
    Option (String × Slot × Slot × PTup × PTup) × ℕ :=
  let available := get_available_slots fabric pl
  if available.isEmpty then (none, k)
  else if cells.isEmpty then (none, k)
  else
    match rngChoice r k cells with
    | none => (none, k + 1)
    | some cell =>
        match pl.lookup cell with
        | none => (none, k + 1)
        | some old_pos =>
            match get_fabric_slot_at_position fabric (ptupFst old_pos)
                (ptupSnd old_pos) with
            | none => (none, k + 1)
            | some old_slot =>
                let available₁ : List (String × ℚ × ℚ) :=
                  match window with
                  | none => available
                  | some w =>
                      let filtered := available.filter (fun t =>
                        decide (|t.2.1 - pyNum (ptupFst old_pos)| ≤ w) &&
                        decide (|t.2.2 - pyNum (ptupSnd old_pos)| ≤ w))
                      if filtered.isEmpty then
                        get_available_slots fabric pl
                      else filtered
                let placed_nbrs := (nbrs cell).filter (fun n =>
                  (pl.lookup n).isSome && !(ports.contains n))
                let key : (String × ℚ × ℚ) → ℚ :=
                  if placed_nbrs.isEmpty then
                    fun t => (t.2.1 - pyNum (ptupFst old_pos)) *
                        (t.2.1 - pyNum (ptupFst old_pos)) +
                      (t.2.2 - pyNum (ptupSnd old_pos)) *
                        (t.2.2 - pyNum (ptupSnd old_pos))
                  else
                    let ax := (placed_nbrs.map (fun n =>
                      pyNum (ptupFst ((pl.lookup n).getD
                        (PTup.pair 0 0))))).sum / placed_nbrs.length
                    let ay := (placed_nbrs.map (fun n =>
                      pyNum (ptupSnd ((pl.lookup n).getD
                        (PTup.pair 0 0))))).sum / placed_nbrs.length
                    fun t => (t.2.1 - ax) * (t.2.1 - ax) +
                      (t.2.2 - ay) * (t.2.2 - ay)
                let sorted := available₁.mergeSort
                  (fun a b => decide (key a ≤ key b))
                let candidates := sorted.take (min 5 sorted.length)
                match rngChoice r (k + 1) candidates with
                | none => (none, k + 2)
                | some nxy =>
                    match get_fabric_slot_at_position fabric
                        (PyVal.num nxy.2.1) (PyVal.num nxy.2.2) with
                    | none => (none, k + 2)
                    | some new_slot =>
                        (some (cell, old_slot, new_slot, old_pos,
                          PTup.pair nxy.2.1 nxy.2.2), k + 2)

/-- A generated move with its data. -/
inductive SAMove where
  | refine (md : String × String × Slot × Slot × PTup × PTup)
  | explore (md : String × Slot × Slot × PTup × PTup)
deriving DecidableEq, Repr

/-- Source: `optimized.generate_move`: one `random.random()` draw chooses between
refine and explore. -/
def generate_move (pl : SAPlacement) (fabric : Fabric)
    (cells : List String) (nbrs : String → List String)
    (ports : List String) (config : SAConfig) (window : Option ℚ)
    (r : Rng) (k : ℕ) : Option SAMove × ℕ :=
  if r.u k < config.prob_refine then
    match refine_move cells pl fabric r (k + 1) with
    | (some md, kk) => (some (SAMove.refine md), kk)
    | (none, kk) => (none, kk)
  else
    match explore_move pl fabric cells nbrs ports window r (k + 1) with
    | (some md, kk) => (some (SAMove.explore md), kk)
    | (none, kk) => (none, kk)

/-- Source: `optimized.apply_move` on the placement dict. -/
def apply_move (pl : SAPlacement) : SAMove → SAPlacement
  | SAMove.refine md =>
      placementSet (placementSet pl md.1 md.2.2.2.2.2) md.2.1 md.2.2.2.2.1
  | SAMove.explore md => placementSet pl md.1 md.2.2.2.2

/-- Source: `optimized.revert_move` on the placement dict. -/
def revert_move (pl : SAPlacement) : SAMove → SAPlacement
  | SAMove.refine md =>
      placementSet (placementSet pl md.1 md.2.2.2.2.1) md.2.1 md.2.2.2.2.2
  | SAMove.explore md => placementSet pl md.1 md.2.2.2.1

/-- Source: `placer.calculate_hpwl` on SA placements: per net, the half-perimeter
of the bounding box of the placed endpoints' `pos[2]`, `pos[3]`
coordinates; reading index 2 of a pair raises `IndexError`. -/
def calculate_hpwl : Nets → SAPlacement → Except String ℚ
  | [], _ => .ok 0
  | (_, net) :: rest, pl =>
      let nodes := net.connections.map Prod.fst
      let placed := nodes.filter (fun n => (pl.lookup n).isSome)
      if placed.length < 2 then calculate_hpwl rest pl
      else
        match placed.mapM (fun n =>
            match pl.lookup n with
            | some t => ptupXY t
            | none => none) with
        | none => .error "IndexError"
        | some ps =>
            match ps with
            | [] => calculate_hpwl rest pl
            | p :: tl =>
                let mxx := tl.foldl (fun a q => max a q.1) p.1
                let mnx := tl.foldl (fun a q => min a q.1) p.1
                let mxy := tl.foldl (fun a q => max a q.2) p.2
                let mny := tl.foldl (fun a q => min a q.2) p.2
                match calculate_hpwl rest pl with
                | .error e => .error e
                | .ok acc => .ok ((mxx - mnx) + (mxy - mny) + acc)

/-- The loop state of `simulated_annealing` (`k` is the rng cursor). -/
structure SAState where
  placement : SAPlacement
  current_cost : ℚ
  best_placement : SAPlacement
  best_cost : ℚ
  k : ℕ
  iteration : ℕ
  no_improve : ℕ
  last_best : ℚ

/-- One iteration of the inner move loop of `simulated_annealing`:
generate, apply, cost, Metropolis-accept or revert.  `accept_move` draws
`random.random()` only in its Metropolis branch, so the cursor advances
there only. -/
noncomputable def saMoveStep (fabric : Fabric) (nets : Nets)
    (cells : List String) (nbrs : String → List String)
    (ports : List String) (config : SAConfig) (temp : ℚ)
    (window : Option ℚ) (r : Rng) (st : SAState) : Except String SAState :=
  let st₀ := { st with iteration := st.iteration + 1 }
  match generate_move st₀.placement fabric cells nbrs ports config window
      r st₀.k with
  | (none, kk) => .ok { st₀ with k := kk }
  | (some mv, kk) =>
      let pl₁ := apply_move st₀.placement mv
      match calculate_hpwl nets pl₁ with
      | .error e => .error e
      | .ok new_cost =>
          let delta := new_cost - st₀.current_cost
          let k₂ := if delta < 0 ∨ temp ≤ 0 then kk else kk + 1
          if accept_move delta temp (r.u kk) then
            .ok { st₀ with
              placement := pl₁,
              current_cost := new_cost,
              best_placement := if new_cost < st₀.best_cost then pl₁
                else st₀.best_placement,
              best_cost := if new_cost < st₀.best_cost then new_cost
                else st₀.best_cost,
              k := k₂ }
          else
            .ok { st₀ with placement := revert_move pl₁ mv, k := k₂ }

/-- The `for _ in range(moves_per_temp)` loop. -/
noncomputable def saMovesLoop (fabric : Fabric) (nets : Nets)
    (cells : List String) (nbrs : String → List String)
    (ports : List String) (config : SAConfig) (temp : ℚ)
    (window : Option ℚ) (r : Rng) : ℕ → SAState → Except String SAState
  | 0, st => .ok st
  | n + 1, st =>
      match saMoveStep fabric nets cells nbrs ports config temp window r
          st with
      | .error e => .error e
      | .ok st₁ =>
          saMovesLoop fabric nets cells nbrs ports config temp window r n
            st₁

/-- The outer temperature loop, with the per-block `best_cost` trace made
explicit.  The fuel starts at `max_iterations + 1`; each executed block
advances `iteration` by `moves_per_temp`, so for a positive
`moves_per_temp` the fuel never runs out before the source loop's own
`iteration < max_iterations` guard stops it. -/
noncomputable def saLoop (fabric : Fabric) (nets : Nets)
    (cells : List String) (nbrs : String → List String)
    (ports : List String) (config : SAConfig) (r : Rng)
    (initial_window : ℚ) :
    ℕ → ℚ → SAState → List ℚ →
      (Except String (SAPlacement × ℚ)) × List ℚ
  | 0, _, st, trace => (.ok (st.best_placement, st.best_cost), trace)
  | fuel + 1, temp, st, trace =>
      if config.final_temp < temp ∧ st.iteration < config.max_iterations
      then
        let temp_ratio := (temp - config.final_temp) /
          (config.initial_temp - config.final_temp)
        let window := initial_window * temp_ratio
        match saMovesLoop fabric nets cells nbrs ports config temp
            (some window) r config.moves_per_temp st with
        | .error e => (.error e, trace)
        | .ok st₁ =>
            let trace₁ := trace ++ [st₁.best_cost]
            let st₂ := if st₁.best_cost < st₁.last_best then
                { st₁ with no_improve := 0, last_best := st₁.best_cost }
              else { st₁ with no_improve := st₁.no_improve + 1 }
            if st₂.best_cost * (3 / 2) < st₂.current_cost ∧
                20 < st₂.no_improve then
              let st₃ := { st₂ with
                placement := st₂.best_placement,
                current_cost := st₂.best_cost,
                no_improve := 0 }
              let temp₂ := min (temp * 5) (config.initial_temp * (1 / 2))
              saLoop fabric nets cells nbrs ports config r initial_window
                fuel (temp₂ * config.cooling_rate) st₃ trace₁
            else
              saLoop fabric nets cells nbrs ports config r initial_window
                fuel (temp * config.cooling_rate) st₂ trace₁
      else (.ok (st.best_placement, st.best_cost), trace)

/-- Source: `optimized.simulated_annealing` (drawing from the explicit `Rng`
stream): returns the best placement and cost — or the propagated
exception — together with the per-block `best_cost` trace. -/
noncomputable def simulated_annealing (fabric : Fabric) (nets : Nets)
    (cells : List String) (nbrs : String → List String)
    (ports : List String) (placement₀ : SAPlacement) (config : SAConfig)
    (r : Rng) : (Except String (SAPlacement × ℚ)) × List ℚ :=
  match calculate_hpwl nets placement₀ with
  | .error e => (.error e, [])
  | .ok c₀ =>
      let dims := get_fabric_dimensions fabric
      let initial_window := config.w_initial * max dims.1 dims.2
      saLoop fabric nets cells nbrs ports config r initial_window
        (config.max_iterations + 1) config.initial_temp
        ⟨placement₀, c₀, placement₀, c₀, 0, 0, 0, c₀⟩ []

/-- Free compatible slots of a type (capacity observer for the claims). -/
def freeCount (fabric : Fabric) (t : String) : ℕ :=
  fabric.countP (fun s => decide (s.placed = none) && decide (s.cell_type = t))

/-- Number of logical cells whose required type is `t`. -/
def typeCountByName (cells : List (String × String)) (names : List String)
    (t : String) : ℕ :=
  names.countP (fun n => decide (requiredType cells n = t))

/-!  # Lemmas and claim theorems -/

/-!  ## Placer lemmas -/

theorem scanBest_mem (required : String) (target : ℚ × ℚ) :
    ∀ (fab : Fabric) (i0 : ℕ) (acc : Option (ℕ × Slot × ℚ)) (j : ℕ)
      (s : Slot) (d : ℚ),
    scanBest required target fab i0 acc = some (j, s, d) →
    acc = some (j, s, d) ∨
      (∃ k, fab.get? k = some s ∧ j = i0 + k ∧ s.placed = none ∧
        s.cell_type = required) := by
  intro fab
  induction fab with
  | nil => intro i0 acc j s d h; exact Or.inl h
  | cons s₁ rest ih =>
      intro i0 acc j s d h
      simp only [scanBest] at h
      rcases ih (i0 + 1) _ j s d h with hacc | ⟨k, hk, hj, hp, hc⟩
      · by_cases hcond : s₁.placed = none ∧ s₁.cell_type = required
        · rw [if_pos hcond] at hacc
          cases acc with
          | none =>
              simp only [Option.some.injEq, Prod.mk.injEq] at hacc
              obtain ⟨hj0, hs0, hd0⟩ := hacc
              subst hj0
              subst hs0
              exact Or.inr ⟨0, rfl, by omega, hcond.1, hcond.2⟩
          | some jsd =>
              obtain ⟨j₀, s₀, d₀⟩ := jsd
              dsimp only at hacc
              by_cases hd : (s₁.x - target.1) * (s₁.x - target.1) +
                  (s₁.y - target.2) * (s₁.y - target.2) < d₀
              · rw [if_pos hd] at hacc
                simp only [Option.some.injEq, Prod.mk.injEq] at hacc
                obtain ⟨hj0, hs0, hd0⟩ := hacc
                subst hj0
                subst hs0
                exact Or.inr ⟨0, rfl, by omega, hcond.1, hcond.2⟩
              · rw [if_neg hd] at hacc
                exact Or.inl hacc
        · rw [if_neg hcond] at hacc
          exact Or.inl hacc
      · refine Or.inr ⟨k + 1, ?_, by omega, hp, hc⟩
        simpa using hk

theorem countP_set_slot (p : Slot → Bool) :
    ∀ (l : List Slot) (i : ℕ) (a b : Slot), l.get? i = some a →
    (l.set i b).countP p + (if p a then 1 else 0) =
      l.countP p + (if p b then 1 else 0) := by
  intro l
  induction l with
  | nil => intro i a b h; simp at h
  | cons x xs ih =>
      intro i a b h
      cases i with
      | zero =>
          simp only [List.get?_cons_zero, Option.some.injEq] at h
          subst h
          simp only [List.set_cons_zero, List.countP_cons]
          cases hpa : p x <;> cases hpb : p b <;> simp [hpa, hpb]
      | succ n =>
          simp only [List.get?_cons_succ] at h
          simp only [List.set_cons_succ, List.countP_cons]
          have := ih n a b h
          cases hx : p x <;> simp <;> omega

theorem assign_ok_spec {fabric : Fabric} {cell_name : String}
    {target : ℚ × ℚ} {cells : List (String × String)} {f' : Fabric}
    {entry : PEntry}
    (h : assign_cell_to_nearest_slot fabric cell_name target cells =
      .ok (f', entry)) :
    entry.2.1 = requiredType cells cell_name ∧
    (∀ t, freeCount f' t +
      (if requiredType cells cell_name = t then 1 else 0) =
        freeCount fabric t) := by
  simp only [assign_cell_to_nearest_slot] at h
  cases hscan : scanBest (requiredType cells cell_name) target fabric 0 none with
  | none => rw [hscan] at h; cases h
  | some jsd =>
      obtain ⟨j, s, d⟩ := jsd
      rw [hscan] at h
      simp only [Except.ok.injEq, Prod.mk.injEq] at h
      obtain ⟨hf, he⟩ := h
      rcases scanBest_mem _ _ fabric 0 none j s d hscan with hacc | hmem
      · cases hacc
      · obtain ⟨k, hget, hj, hfree, htype⟩ := hmem
        have hj0 : j = k := by omega
        subst hj0
        constructor
        · rw [← he]; exact htype
        · intro t
          have hset := countP_set_slot
            (fun sl => decide (sl.placed = none) && decide (sl.cell_type = t))
            fabric j s { s with placed := some cell_name } hget
          rw [← hf]
          unfold freeCount
          dsimp only at hset
          by_cases ht : requiredType cells cell_name = t
          · have h1 : (decide (s.placed = none) &&
                decide (s.cell_type = t)) = true := by
              simp [hfree, htype, ht]
            have h2 : (decide (({ s with placed := some cell_name } :
                Slot).placed = none) &&
                decide (({ s with placed := some cell_name } :
                  Slot).cell_type = t)) = false := by
              simp
            rw [h1, h2] at hset
            simp only [if_pos ht]
            simp at hset
            omega
          · have h1 : (decide (s.placed = none) &&
                decide (s.cell_type = t)) = false := by
              have hne : s.cell_type ≠ t := by rw [htype]; exact ht
              simp [hne]
            have h2 : (decide (({ s with placed := some cell_name } :
                Slot).placed = none) &&
                decide (({ s with placed := some cell_name } :
                  Slot).cell_type = t)) = false := by
              simp
            rw [h1, h2] at hset
            simp only [if_neg ht]
            simp at hset
            omega

theorem placeSeq_freeCount (cells : List (String × String))
    (nbrs : String → List String) (t : String) :
    ∀ (names : List String) (fabric : Fabric) (pl : Placement)
      (f' : Fabric) (pl' : Placement),
    placeSeq cells nbrs fabric pl names = (f', .ok pl') →
    freeCount f' t + typeCountByName cells names t = freeCount fabric t := by
  intro names
  induction names with
  | nil =>
      intro fabric pl f' pl' h
      simp only [placeSeq, Prod.mk.injEq] at h
      rw [← h.1]
      simp [typeCountByName]
  | cons c rest ih =>
      intro fabric pl f' pl' h
      simp only [placeSeq] at h
      cases hb : barycenter_position nbrs c pl with
      | none => rw [hb] at h; simp at h
      | some pos =>
          rw [hb] at h
          dsimp only at h
          cases ha : assign_cell_to_nearest_slot fabric c pos cells with
          | error e => rw [ha] at h; simp at h
          | ok fe =>
              rw [ha] at h
              dsimp only at h
              obtain ⟨_, hfc⟩ := assign_ok_spec ha
              have hrec := ih fe.1 (pl ++ [(c, fe.2)]) f' pl' h
              have hstep := hfc t
              unfold typeCountByName at *
              rw [List.countP_cons]
              by_cases ht : requiredType cells c = t
              · simp only [if_pos ht] at hstep
                simp [ht]
                omega
              · simp only [if_neg ht] at hstep
                simp [ht]
                omega

theorem pickMax_foldl_mem :
    ∀ (rs : List (ℕ × String)) (r : ℕ × String),
    rs.foldl (fun acc p => if rankLt acc p then p else acc) r ∈ r :: rs := by
  intro rs
  induction rs with
  | nil => intro r; simp
  | cons p ps ih =>
      intro r
      simp only [List.foldl_cons]
      rcases List.mem_cons.mp (ih (if rankLt r p then p else r)) with h | h
      · rw [h]
        by_cases hr : rankLt r p
        · rw [if_pos hr]
          exact List.mem_cons_of_mem r (List.mem_cons_self p ps)
        · rw [if_neg hr]
          exact List.mem_cons_self r _
      · exact List.mem_cons_of_mem r (List.mem_cons_of_mem p h)

theorem pickMax_mem {l : List (ℕ × String)} {kc : ℕ × String}
    (h : pickMax l = some kc) : kc ∈ l := by
  cases l with
  | nil => cases h
  | cons r rs =>
      simp only [pickMax, Option.some.injEq] at h
      rw [← h]
      exact pickMax_foldl_mem rs r

theorem growRanked_mem {nbrs : String → List String} {pl : Placement}
    {remaining : List String} {k : ℕ} {c : String}
    (h : (k, c) ∈ growRanked nbrs pl remaining) :
    c ∈ remaining ∧ k = countPlacedNbrs nbrs pl c ∧ 0 < k := by
  unfold growRanked at h
  rcases List.mem_filterMap.mp h with ⟨a, ha, hf⟩
  by_cases hc : 0 < countPlacedNbrs nbrs pl a
  · rw [if_pos hc] at hf
    simp only [Option.some.injEq, Prod.mk.injEq] at hf
    obtain ⟨hk, hac⟩ := hf
    subst hac
    exact ⟨ha, hk.symm, hk ▸ hc⟩
  · rw [if_neg hc] at hf
    cases hf

theorem growLoop_freeCount (cells : List (String × String))
    (nbrs : String → List String) (t : String) :
    ∀ (fuel : ℕ) (remaining : List String) (fabric : Fabric)
      (pl : Placement) (f' : Fabric) (pl' : Placement),
    growLoop cells nbrs fuel fabric pl remaining = (f', .ok pl') →
    freeCount f' t + typeCountByName cells remaining t = freeCount fabric t := by
  intro fuel
  induction fuel with
  | zero =>
      intro remaining fabric pl f' pl' h
      cases remaining with
      | nil =>
          simp only [growLoop, Prod.mk.injEq] at h
          rw [← h.1]
          simp [typeCountByName]
      | cons c rest => simp [growLoop] at h
  | succ fuel ih =>
      intro remaining fabric pl f' pl' h
      cases remaining with
      | nil =>
          simp only [growLoop, Prod.mk.injEq] at h
          rw [← h.1]
          simp [typeCountByName]
      | cons c rest =>
          simp only [growLoop] at h
          cases hpick : pickMax (growRanked nbrs pl (c :: rest)) with
          | some kc =>
              rw [hpick] at h
              dsimp only at h
              cases hb : barycenter_position nbrs kc.2 pl with
              | none => rw [hb] at h; simp at h
              | some pos =>
                  rw [hb] at h
                  dsimp only at h
                  cases ha : assign_cell_to_nearest_slot fabric kc.2 pos cells with
                  | error e => rw [ha] at h; simp at h
                  | ok fe =>
                      rw [ha] at h
                      dsimp only at h
                      obtain ⟨_, hfc⟩ := assign_ok_spec ha
                      have hrec := ih ((c :: rest).erase kc.2) fe.1
                        (pl ++ [(kc.2, fe.2)]) f' pl' h
                      have hstep := hfc t
                      have hmem : kc.2 ∈ c :: rest := by
                        have := pickMax_mem hpick
                        rcases kc with ⟨k0, c0⟩
                        exact (growRanked_mem this).1
                      have hperm : (c :: rest).Perm
                          (kc.2 :: (c :: rest).erase kc.2) :=
                        List.perm_cons_erase hmem
                      unfold typeCountByName at *
                      rw [hperm.countP_eq, List.countP_cons]
                      by_cases ht : requiredType cells kc.2 = t
                      · simp only [if_pos ht] at hstep
                        simp [ht]
                        omega
                      · simp only [if_neg ht] at hstep
                        simp [ht]
                        omega
          | none =>
              rw [hpick] at h
              dsimp only at h
              cases ha : assign_cell_to_nearest_slot fabric c (0, 0) cells with
              | error e => rw [ha] at h; simp at h
              | ok fe =>
                  rw [ha] at h
                  dsimp only at h
                  obtain ⟨_, hfc⟩ := assign_ok_spec ha
                  have hrec := ih rest fe.1 (pl ++ [(c, fe.2)]) f' pl' h
                  have hstep := hfc t
                  unfold typeCountByName at *
                  rw [List.countP_cons]
                  by_cases ht : requiredType cells c = t
                  · simp only [if_pos ht] at hstep
                    simp [ht]
                    omega
                  · simp only [if_neg ht] at hstep
                    simp [ht]
                    omega

theorem countP_filter_partition (l : List α) (p q : α → Bool) :
    (l.filter q).countP p + (l.filter (fun a => ! q a)).countP p =
      l.countP p := by
  induction l with
  | nil => simp
  | cons x xs ih =>
      cases hq : q x <;>
        simp [List.filter_cons, hq, List.countP_cons] <;> omega

theorem initial_placement_capacity {fabric : Fabric}
    {cells : List (String × String)} {nbrs : String → List String}
    {pins : List (String × (ℚ × ℚ))} {inputs outputs : List String}
    {f' : Fabric} {pl' : Placement}
    (h : initial_placement fabric cells nbrs pins inputs outputs =
      (f', .ok pl')) (t : String) :
    typeCountByName cells (cells.map Prod.fst) t ≤ freeCount fabric t := by
  unfold initial_placement at h
  cases hpp : place_pins pins (inputs ++ outputs) with
  | error e => rw [hpp] at h; simp at h
  | ok pl0 =>
      rw [hpp] at h
      simp only at h
      cases hseq : placeSeq cells nbrs fabric pl0
          ((cells.filter
            (fun c => seedPred nbrs (pl0.map Prod.fst) c.1)).map Prod.fst) with
      | mk f1 r1 =>
          rw [hseq] at h
          cases r1 with
          | error e => simp at h
          | ok pl1 =>
              simp only at h
              have hseed := placeSeq_freeCount cells nbrs t _ fabric pl0 f1 pl1 hseq
              have hgrow := growLoop_freeCount cells nbrs t _ _ f1 pl1 f' pl' h
              have key : typeCountByName cells (cells.map Prod.fst) t =
                  typeCountByName cells
                    ((cells.filter (fun c =>
                      seedPred nbrs (pl0.map Prod.fst) c.1)).map Prod.fst) t +
                  typeCountByName cells
                    ((cells.filter (fun c =>
                      ! seedPred nbrs (pl0.map Prod.fst) c.1)).map Prod.fst) t := by
                unfold typeCountByName
                rw [List.countP_map, List.countP_map, List.countP_map]
                exact (countP_filter_partition cells _ _).symm
              omega

/-- C3 counterexample: one free `X` slot, two `X` cells.  The run fails
with a `ValueError` naming the cell and its type (no required/available
counts), and the slot claimed for the first cell stays claimed in the
fabric: occupancy is NOT left unchanged by the failed run. -/
theorem claim_C3_counterexample :
    (initial_placement [⟨"s1", "X", 0, 0, none⟩]
        [("c1", "X"), ("c2", "X")] (fun _ => ["p"]) [("p", (0, 0))]
        ["p"] []).2 =
      .error "No free slots available for cell c2 of type X" ∧
    (initial_placement [⟨"s1", "X", 0, 0, none⟩]
        [("c1", "X"), ("c2", "X")] (fun _ => ["p"]) [("p", (0, 0))]
        ["p"] []).1 =
      [⟨"s1", "X", 0, 0, some "c1"⟩] ∧
    ([⟨"s1", "X", 0, 0, some "c1"⟩] : Fabric) ≠ [⟨"s1", "X", 0, 0, none⟩] := by
  refine ⟨rfl, rfl, by decide⟩

/-- C3 amended: if some cell type is over-subscribed (more logical cells
requiring the type than free compatible slots), `initial_placement` fails
with an error (a `ValueError` naming the failing cell and its type, not a
`FabricCapacityExhausted` record with counts); no placement is returned,
but the failed run is not atomic — the slots claimed before the failure
remain marked occupied in the fabric, as the counterexample shows. -/
theorem claim_C3_amended (fabric : Fabric) (cells : List (String × String))
    (nbrs : String → List String) (pins : List (String × (ℚ × ℚ)))
    (inputs outputs : List String) (t : String)
    (h : freeCount fabric t < typeCountByName cells (cells.map Prod.fst) t) :
    ∃ e, (initial_placement fabric cells nbrs pins inputs outputs).2 =
      .error e := by
  rcases hres : initial_placement fabric cells nbrs pins inputs outputs with
    ⟨f', r⟩
  cases r with
  | ok pl' =>
      exact absurd (initial_placement_capacity hres t) (not_le.mpr h)
  | error e => exact ⟨e, rfl⟩

/-- Witness for C3 amended at the counterexample scenario. -/
theorem claim_C3_amended_witness :
    ∃ e, (initial_placement [⟨"s1", "X", 0, 0, none⟩]
        [("c1", "X"), ("c2", "X")] (fun _ => ["p"]) [("p", (0, 0))]
        ["p"] []).2 = .error e :=
  claim_C3_amended [⟨"s1", "X", 0, 0, none⟩] [("c1", "X"), ("c2", "X")]
    (fun _ => ["p"]) [("p", (0, 0))] ["p"] [] "X" (by decide)

/-!  ## Grow-stage selection order (C7) -/

theorem rankLt_trans {a b c : ℕ × String} (h1 : rankLt a b)
    (h2 : rankLt b c) : rankLt a c := by
  unfold rankLt at *
  rcases h1 with h1 | ⟨h1e, h1s⟩ <;> rcases h2 with h2 | ⟨h2e, h2s⟩
  · exact Or.inl (lt_trans h1 h2)
  · exact Or.inl (h2e ▸ h1)
  · exact Or.inl (h1e ▸ h2)
  · exact Or.inr ⟨h1e.trans h2e, lt_trans h1s h2s⟩

theorem rankLt_connex {a b : ℕ × String} (h : ¬ rankLt a b) :
    a = b ∨ rankLt b a := by
  unfold rankLt at *
  rcases lt_trichotomy a.1 b.1 with h1 | h1 | h1
  · exact absurd (Or.inl h1) h
  · rcases lt_trichotomy a.2 b.2 with h2 | h2 | h2
    · exact absurd (Or.inr ⟨h1, h2⟩) h
    · exact Or.inl (Prod.ext h1 h2)
    · exact Or.inr (Or.inr ⟨h1.symm, h2⟩)
  · exact Or.inr (Or.inl h1)

theorem rankLe_trans_aux {a b c : ℕ × String} (h1 : a = b ∨ rankLt a b)
    (h2 : b = c ∨ rankLt b c) : a = c ∨ rankLt a c := by
  rcases h1 with rfl | h1
  · exact h2
  · rcases h2 with rfl | h2
    · exact Or.inr h1
    · exact Or.inr (rankLt_trans h1 h2)

theorem pickMax_foldl_max :
    ∀ (rs : List (ℕ × String)) (r q : ℕ × String), q ∈ r :: rs →
    q = rs.foldl (fun acc p => if rankLt acc p then p else acc) r ∨
      rankLt q (rs.foldl (fun acc p => if rankLt acc p then p else acc) r) := by
  intro rs
  induction rs with
  | nil =>
      intro r q hq
      simp at hq
      exact Or.inl (by simp [hq])
  | cons p ps ih =>
      intro r q hq
      simp only [List.foldl_cons]
      have hstep : r = (if rankLt r p then p else r) ∨
          rankLt r (if rankLt r p then p else r) := by
        by_cases hr : rankLt r p
        · rw [if_pos hr]; exact Or.inr hr
        · rw [if_neg hr]; exact Or.inl rfl
      have hstep2 : p = (if rankLt r p then p else r) ∨
          rankLt p (if rankLt r p then p else r) := by
        by_cases hr : rankLt r p
        · rw [if_pos hr]; exact Or.inl rfl
        · rw [if_neg hr]
          rcases rankLt_connex hr with h | h
          · exact Or.inl h.symm
          · exact Or.inr h
      have hacc := ih (if rankLt r p then p else r)
        (if rankLt r p then p else r) (List.mem_cons_self _ _)
      rcases List.mem_cons.mp hq with rfl | hq'
      · exact rankLe_trans_aux hstep hacc
      rcases List.mem_cons.mp hq' with rfl | hq''
      · exact rankLe_trans_aux hstep2 hacc
      · exact ih _ q (List.mem_cons_of_mem _ hq'')

theorem pickMax_spec {l : List (ℕ × String)} {kc : ℕ × String}
    (h : pickMax l = some kc) :
    kc ∈ l ∧ ∀ q ∈ l, q = kc ∨ rankLt q kc := by
  cases l with
  | nil => cases h
  | cons r rs =>
      simp only [pickMax, Option.some.injEq] at h
      subst h
      exact ⟨pickMax_foldl_mem rs r, fun q hq => pickMax_foldl_max rs r q hq⟩

theorem pickMax_tie_ab :
    pickMax (growRanked (fun _ => ["s"]) [("s", ("slot0", "T", 0, 0))]
      ["a", "b"]) = some (1, "b") := by
  have h1 : growRanked (fun _ => ["s"]) [("s", ("slot0", "T", 0, 0))]
      ["a", "b"] = [(1, "a"), (1, "b")] := rfl
  rw [h1]
  have hab : ("a" : String) < "b" := by
    rw [String.lt_iff_toList_lt]
    decide
  have hlt : rankLt (1, "a") (1, "b") := Or.inr ⟨rfl, hab⟩
  simp [pickMax, hlt]

/-- C7 counterexample: two unplaced cells `a` and `b`, each with exactly one
placed neighbor, tie on the placed-neighbor count; the grow-stage selection
(`ranked.sort(reverse=True); ranked[0]`) picks `b`, the cell with the
lexicographically greatest name — not `a`, the one with the lowest id. -/
theorem claim_C7_counterexample :
    growRanked (fun _ => ["s"]) [("s", ("slot0", "T", 0, 0))] ["a", "b"] =
      [(1, "a"), (1, "b")] ∧
    pickMax (growRanked (fun _ => ["s"]) [("s", ("slot0", "T", 0, 0))]
        ["a", "b"]) = some (1, "b") ∧
    ("b" : String) ≠ "a" := by
  refine ⟨rfl, pickMax_tie_ab, by decide⟩

/-- C7 amended: in every grow-stage iteration where some unplaced cell has
a placed neighbor, the cell placed next has the largest number of already
placed neighbors, and among cells tied for that maximum the one with the
lexicographically GREATEST name is chosen (the descending tuple sort breaks
count ties by name in descending order, the opposite of the claimed
lowest-id rule). -/
theorem claim_C7_amended {nbrs : String → List String} {pl : Placement}
    {remaining : List String} {k : ℕ} {c : String}
    (h : pickMax (growRanked nbrs pl remaining) = some (k, c)) :
    c ∈ remaining ∧ k = countPlacedNbrs nbrs pl c ∧ 0 < k ∧
    ∀ q ∈ growRanked nbrs pl remaining,
      q.1 < k ∨ (q.1 = k ∧ (q.2 = c ∨ q.2 < c)) := by
  obtain ⟨hmem, hmax⟩ := pickMax_spec h
  obtain ⟨hr, hcnt, hpos⟩ := growRanked_mem hmem
  refine ⟨hr, hcnt, hpos, ?_⟩
  intro q hq
  rcases hmax q hq with rfl | hlt
  · exact Or.inr ⟨rfl, Or.inl rfl⟩
  · unfold rankLt at hlt
    rcases hlt with h1 | ⟨h1, h2⟩
    · exact Or.inl h1
    · exact Or.inr ⟨h1, Or.inr h2⟩

/-- Witness for C7 amended at the counterexample scenario. -/
theorem claim_C7_amended_witness :
    ("b" : String) ∈ ["a", "b"] ∧
    1 = countPlacedNbrs (fun _ => ["s"]) [("s", ("slot0", "T", 0, 0))] "b" ∧
    0 < 1 ∧
    ∀ q ∈ growRanked (fun _ => ["s"]) [("s", ("slot0", "T", 0, 0))]
        ["a", "b"],
      q.1 < 1 ∨ (q.1 = 1 ∧ (q.2 = "b" ∨ q.2 < "b")) :=
  claim_C7_amended pickMax_tie_ab

/-!  ## CTS rewrite (C2) -/

theorem lookup_cons_self {α β : Type} [BEq α] [LawfulBEq α] (k : α) (v : β)
    (l : List (α × β)) : ((k, v) :: l).lookup k = some v := by
  simp [List.lookup_cons]

theorem lookup_cons_ne {α β : Type} [BEq α] [LawfulBEq α] {a k : α} (v : β)
    (l : List (α × β)) (h : a ≠ k) : ((k, v) :: l).lookup a = l.lookup a := by
  have hb : (a == k) = false := beq_eq_false_iff_ne.mpr h
  simp [List.lookup_cons, hb]

theorem lookup_append_some {α β : Type} [BEq α] {l₁ l₂ : List (α × β)}
    {a : α} {v : β} (h : l₁.lookup a = some v) :
    (l₁ ++ l₂).lookup a = some v := by
  induction l₁ with
  | nil => simp [List.lookup] at h
  | cons p rest ih =>
      rw [List.cons_append]
      rw [List.lookup_cons] at h ⊢
      cases hb : a == p.1 with
      | true => rw [hb] at h; exact h
      | false => rw [hb] at h; exact ih h

theorem lookup_append_none {α β : Type} [BEq α] {l₁ : List (α × β)}
    (l₂ : List (α × β)) {a : α} (h : l₁.lookup a = none) :
    (l₁ ++ l₂).lookup a = l₂.lookup a := by
  induction l₁ with
  | nil => simp
  | cons p rest ih =>
      rw [List.cons_append]
      rw [List.lookup_cons] at h ⊢
      cases hb : a == p.1 with
      | true => rw [hb] at h; cases h
      | false => rw [hb] at h; exact ih h

theorem lookup_mapValue_eq {α β : Type} [BEq α] [LawfulBEq α]
    [DecidableEq α] (l : List (α × β)) (k : α) (f : β → β) :
    (l.map (fun p => if p.1 = k then (p.1, f p.2) else p)).lookup k =
      (l.lookup k).map f := by
  induction l with
  | nil => simp
  | cons p rest ih =>
      obtain ⟨p1, p2⟩ := p
      by_cases hp : p1 = k
      · subst hp
        simp [List.lookup_cons, ih]
      · have hb : (k == p1) = false :=
          beq_eq_false_iff_ne.mpr (fun hh => hp hh.symm)
        simp [List.lookup_cons, hp, hb, ih]

theorem lookup_mapValue_ne {α β : Type} [BEq α] [LawfulBEq α]
    [DecidableEq α] (l : List (α × β)) {a k : α} (f : β → β) (h : a ≠ k) :
    (l.map (fun p => if p.1 = k then (p.1, f p.2) else p)).lookup a =
      l.lookup a := by
  induction l with
  | nil => simp
  | cons p rest ih =>
      obtain ⟨p1, p2⟩ := p
      by_cases hp : p1 = k
      · subst hp
        have hb : (a == p1) = false := beq_eq_false_iff_ne.mpr h
        simp [List.lookup_cons, hb, ih]
      · cases hb : a == p1 with
        | true => simp [List.lookup_cons, hp, hb]
        | false => simp [List.lookup_cons, hp, hb, ih]

theorem lookup_append_single_ne {α β : Type} [BEq α] [LawfulBEq α]
    (l : List (α × β)) {a k : α} (v : β) (h : a ≠ k) :
    (l ++ [(k, v)]).lookup a = l.lookup a := by
  have hb : (a == k) = false := beq_eq_false_iff_ne.mpr h
  induction l with
  | nil => simp [List.lookup_cons, hb]
  | cons p rest ih =>
      obtain ⟨p1, p2⟩ := p
      by_cases hap : a = p1
      · subst hap
        simp [List.lookup_cons]
      · have hbp : (a == p1) = false := beq_eq_false_iff_ne.mpr hap
        simp only [List.cons_append, List.lookup_cons, hbp]
        exact ih

theorem pinsDel_lookup_self (ps : Pins) (k : String) :
    (pinsDel ps k).lookup k = none := by
  induction ps with
  | nil => rfl
  | cons p rest ih =>
      obtain ⟨p1, p2⟩ := p
      by_cases hp : p1 = k
      · subst hp
        simpa [pinsDel, List.filter_cons] using ih
      · have : (pinsDel ((p1, p2) :: rest) k) = (p1, p2) :: pinsDel rest k := by
          simp [pinsDel, List.filter_cons, hp]
        rw [this, lookup_cons_ne p2 _ (fun hh => hp hh.symm)]
        exact ih

theorem pinsDel_lookup_ne (ps : Pins) {a k : String} (h : a ≠ k) :
    (pinsDel ps k).lookup a = ps.lookup a := by
  induction ps with
  | nil => rfl
  | cons p rest ih =>
      obtain ⟨p1, p2⟩ := p
      by_cases hp : p1 = k
      · subst hp
        have hd : (pinsDel ((p1, p2) :: rest) p1) = pinsDel rest p1 := by
          simp [pinsDel, List.filter_cons]
        rw [hd, ih, lookup_cons_ne p2 _ h]
      · have hd : (pinsDel ((p1, p2) :: rest) k) = (p1, p2) :: pinsDel rest k := by
          simp [pinsDel, List.filter_cons, hp]
        rw [hd]
        by_cases hap : a = p1
        · subst hap
          rw [lookup_cons_self, lookup_cons_self]
        · rw [lookup_cons_ne p2 _ hap, lookup_cons_ne p2 _ hap]
          exact ih

theorem pinsSet_lookup_self (ps : Pins) (k : String) (v : ℕ) :
    (pinsSet ps k v).lookup k = some v := by
  unfold pinsSet
  by_cases hk : (ps.lookup k).isSome
  · rw [if_pos hk]
    have h2 := lookup_mapValue_eq ps k (fun _ => v)
    rw [h2]
    obtain ⟨w, hw⟩ := Option.isSome_iff_exists.mp hk
    rw [hw]
    rfl
  · rw [if_neg hk]
    have hn : ps.lookup k = none := Option.not_isSome_iff_eq_none.mp hk
    rw [lookup_append_none _ hn, lookup_cons_self]

theorem pinsSet_lookup_ne (ps : Pins) {a k : String} (v : ℕ) (h : a ≠ k) :
    (pinsSet ps k v).lookup a = ps.lookup a := by
  unfold pinsSet
  by_cases hk : (ps.lookup k).isSome
  · rw [if_pos hk]
    exact lookup_mapValue_ne ps (fun _ => v) h
  · rw [if_neg hk]
    exact lookup_append_single_ne ps v h

theorem cellsModify_lookup_self {cs : Cells} {name : String} {c : LCell}
    (f : LCell → LCell) (h : cs.lookup name = some c) :
    (cellsModify cs name f).lookup name = some (f c) := by
  have h2 := lookup_mapValue_eq cs name f
  rw [h] at h2
  exact h2

theorem cellsModify_lookup_ne (cs : Cells) {a name : String}
    (f : LCell → LCell) (h : a ≠ name) :
    (cellsModify cs name f).lookup a = cs.lookup a :=
  lookup_mapValue_ne cs f h

theorem cellsSet_lookup_ne (cs : Cells) {a name : String} (cell : LCell)
    (h : a ≠ name) : (cellsSet cs name cell).lookup a = cs.lookup a := by
  unfold cellsSet
  by_cases hn : (cs.lookup name).isSome
  · rw [if_pos hn]
    exact lookup_mapValue_ne cs (fun _ => cell) h
  · rw [if_neg hn]
    exact lookup_append_single_ne cs cell h

theorem netsModify_lookup_self {ns : Nets} {id : ℕ} {n : Net}
    (f : List (String × String) → List (String × String))
    (h : ns.lookup id = some n) :
    (netsModifyConnections ns id f).lookup id =
      some ⟨n.name, f n.connections⟩ := by
  have h2 := lookup_mapValue_eq ns id
    (fun m => (⟨m.name, f m.connections⟩ : Net))
  rw [h] at h2
  exact h2

theorem netsModify_lookup_ne (ns : Nets) {a id : ℕ}
    (f : List (String × String) → List (String × String)) (h : a ≠ id) :
    (netsModifyConnections ns id f).lookup a = ns.lookup a :=
  lookup_mapValue_ne ns (fun m => (⟨m.name, f m.connections⟩ : Net)) h

theorem removePinStep_lookup_ne (clock_net : String) (clkid : ℕ)
    (cs : Cells) (conn : String × String) {s : String} (h : conn.1 ≠ s) :
    (removePinStep clock_net clkid cs conn).lookup s = cs.lookup s := by
  unfold removePinStep
  by_cases h1 : conn.1 = clock_net
  · rw [if_pos h1]
  · rw [if_neg h1]
    by_cases h2 : (cs.lookup conn.1).isSome
    · rw [if_pos h2]
      exact cellsModify_lookup_ne cs _ (fun hh => h hh.symm)
    · rw [if_neg h2]

theorem removePinStep_P (clock_net : String) (clkid : ℕ)
    (cs : Cells) (conn : String × String) {s : String} {c : LCell}
    (hc : cs.lookup s = some c)
    (hor : c.pins.lookup "C" = none ∨ c.pins.lookup "C" = some clkid) :
    ∃ d, (removePinStep clock_net clkid cs conn).lookup s = some d ∧
      (d.pins.lookup "C" = none ∨ d.pins.lookup "C" = some clkid) := by
  by_cases hcs : conn.1 = s
  · subst hcs
    unfold removePinStep
    by_cases h1 : conn.1 = clock_net
    · rw [if_pos h1]
      exact ⟨c, hc, hor⟩
    · rw [if_neg h1]
      have h2 : (cs.lookup conn.1).isSome := by rw [hc]; rfl
      rw [if_pos h2, cellsModify_lookup_self _ hc]
      by_cases h3 : c.pins.lookup conn.2 = some clkid
      · rw [if_pos h3]
        by_cases h4 : conn.2 = "C"
        · refine ⟨_, rfl, Or.inl ?_⟩
          rw [h4]
          exact pinsDel_lookup_self c.pins "C"
        · refine ⟨_, rfl, ?_⟩
          have := pinsDel_lookup_ne c.pins
            (a := "C") (k := conn.2) (fun hh => h4 hh.symm)
          rw [this]
          exact hor
      · rw [if_neg h3]
        exact ⟨c, rfl, hor⟩
  · rw [removePinStep_lookup_ne clock_net clkid cs conn hcs, hc]
    exact ⟨c, rfl, hor⟩

theorem removePinStep_Q (clock_net : String) (clkid : ℕ)
    (cs : Cells) (conn : String × String) {s : String} {c : LCell}
    (hc : cs.lookup s = some c) (hn : c.pins.lookup "C" = none) :
    ∃ d, (removePinStep clock_net clkid cs conn).lookup s = some d ∧
      d.pins.lookup "C" = none := by
  obtain ⟨d, hd, hor⟩ := removePinStep_P clock_net clkid cs conn hc
    (Or.inl hn)
  refine ⟨d, hd, ?_⟩
  rcases hor with h | h
  · exact h
  · exfalso
    by_cases hcs : conn.1 = s
    · subst hcs
      revert hd
      unfold removePinStep
      by_cases h1 : conn.1 = clock_net
      · rw [if_pos h1, hc]
        intro hd
        cases hd
        rw [hn] at h
        cases h
      · rw [if_neg h1]
        have h2 : (cs.lookup conn.1).isSome := by rw [hc]; rfl
        rw [if_pos h2, cellsModify_lookup_self _ hc]
        intro hd
        cases hd
        by_cases h3 : c.pins.lookup conn.2 = some clkid
        · rw [if_pos h3] at h
          by_cases h4 : conn.2 = "C"
          · rw [h4] at h
            dsimp only at h
            rw [pinsDel_lookup_self c.pins "C"] at h
            cases h
          · rw [pinsDel_lookup_ne c.pins
              (a := "C") (k := conn.2) (fun hh => h4 hh.symm), hn] at h
            cases h
        · rw [if_neg h3, hn] at h
          cases h
    · rw [removePinStep_lookup_ne clock_net clkid cs conn hcs, hc] at hd
      cases hd
      rw [hn] at h
      cases h

theorem removePinStep_establish (clock_net : String) (clkid : ℕ)
    (cs : Cells) {s : String} {c : LCell} (hs : s ≠ clock_net)
    (hc : cs.lookup s = some c)
    (hor : c.pins.lookup "C" = none ∨ c.pins.lookup "C" = some clkid) :
    ∃ d, (removePinStep clock_net clkid cs (s, "C")).lookup s = some d ∧
      d.pins.lookup "C" = none := by
  unfold removePinStep
  rw [if_neg hs]
  have h2 : (cs.lookup s).isSome := by rw [hc]; rfl
  rw [if_pos h2, cellsModify_lookup_self _ hc]
  by_cases h3 : c.pins.lookup "C" = some clkid
  · rw [if_pos h3]
    exact ⟨_, rfl, pinsDel_lookup_self c.pins "C"⟩
  · rw [if_neg h3]
    refine ⟨c, rfl, ?_⟩
    rcases hor with h | h
    · exact h
    · exact absurd h h3

theorem removeClockPins_P (clock_net : String) (clkid : ℕ)
    (l : List (String × String)) :
    ∀ (cs : Cells) {s : String} {c : LCell}, cs.lookup s = some c →
    (c.pins.lookup "C" = none ∨ c.pins.lookup "C" = some clkid) →
    ∃ d, (removeClockPins cs clock_net clkid l).lookup s = some d ∧
      (d.pins.lookup "C" = none ∨ d.pins.lookup "C" = some clkid) := by
  induction l with
  | nil =>
      intro cs s c hc hor
      exact ⟨c, hc, hor⟩
  | cons p rest ih =>
      intro cs s c hc hor
      obtain ⟨d, hd, hord⟩ := removePinStep_P clock_net clkid cs p hc hor
      exact ih (removePinStep clock_net clkid cs p) hd hord

theorem removeClockPins_Q (clock_net : String) (clkid : ℕ)
    (l : List (String × String)) :
    ∀ (cs : Cells) {s : String} {c : LCell}, cs.lookup s = some c →
    c.pins.lookup "C" = none →
    ∃ d, (removeClockPins cs clock_net clkid l).lookup s = some d ∧
      d.pins.lookup "C" = none := by
  induction l with
  | nil =>
      intro cs s c hc hn
      exact ⟨c, hc, hn⟩
  | cons p rest ih =>
      intro cs s c hc hn
      obtain ⟨d, hd, hnd⟩ := removePinStep_Q clock_net clkid cs p hc hn
      exact ih (removePinStep clock_net clkid cs p) hd hnd

/-- After the removal loop, a flip-flop whose pin `C` carried the clock
net and that appears as `(s, C)` among the old clock connections has lost
its `C` pin for good. -/
theorem removeClockPins_main {cells : Cells} {clock_net : String}
    {clkid : ℕ} {conns : List (String × String)} {s : String} {c : LCell}
    (hs : s ≠ clock_net) (hmem : (s, "C") ∈ conns)
    (hc : cells.lookup s = some c)
    (hC : c.pins.lookup "C" = some clkid) :
    ∃ d, (removeClockPins cells clock_net clkid conns).lookup s = some d ∧
      d.pins.lookup "C" = none := by
  obtain ⟨l₁, l₂, rfl⟩ := List.append_of_mem hmem
  unfold removeClockPins
  rw [List.foldl_append, List.foldl_cons]
  obtain ⟨c₁, hc₁, hor₁⟩ := removeClockPins_P clock_net clkid l₁ cells hc
    (Or.inr hC)
  obtain ⟨c₂, hc₂, hn₂⟩ := removePinStep_establish clock_net clkid _ hs
    hc₁ hor₁
  exact removeClockPins_Q clock_net clkid l₂ _ hc₂ hn₂

theorem sinkConnsOf_net {cells : Cells} {sinks : List String} {net : ℕ}
    {c : Conn} (h : c ∈ sinkConnsOf cells sinks net) : c.2.2 = net := by
  unfold sinkConnsOf at h
  rw [List.mem_filterMap] at h
  obtain ⟨a, _, ha⟩ := h
  by_cases hs : (cells.lookup a).isSome
  · rw [if_pos hs] at ha
    cases ha
    rfl
  · rw [if_neg hs] at ha
    cases ha

theorem sinkConnsOf_cons_some {cells : Cells} {a : String}
    (sinks : List String) (net : ℕ) (ha : (cells.lookup a).isSome) :
    sinkConnsOf cells (a :: sinks) net =
      (a, clockPinOf cells a, net) :: sinkConnsOf cells sinks net := by
  simp [sinkConnsOf, List.filterMap_cons, ha]

theorem sinkConnsOf_cons_none {cells : Cells} {a : String}
    (sinks : List String) (net : ℕ) (ha : ¬ (cells.lookup a).isSome) :
    sinkConnsOf cells (a :: sinks) net = sinkConnsOf cells sinks net := by
  simp [sinkConnsOf, List.filterMap_cons, ha]

theorem sinkConnsOf_filter {cells : Cells} {s : String}
    (sinks : List String) (net : ℕ) (hs : (cells.lookup s).isSome) :
    (sinkConnsOf cells sinks net).filter (fun c => decide (c.1 = s)) =
      List.replicate (sinks.count s) (s, clockPinOf cells s, net) := by
  induction sinks with
  | nil => rfl
  | cons a rest ih =>
      by_cases ha : (cells.lookup a).isSome
      · rw [sinkConnsOf_cons_some rest net ha]
        by_cases has : a = s
        · subst has
          rw [List.count_cons_self, List.replicate_succ]
          simp [List.filter_cons, ih]
        · rw [List.count_cons_of_ne (fun hh => has hh.symm),
            List.filter_cons]
          have hd : decide ((a, clockPinOf cells a, net).1 = s) = false := by
            simp [has]
          rw [hd, if_neg Bool.false_ne_true]
          exact ih
      · have hsa : s ≠ a := by
          intro hh
          exact ha (hh ▸ hs)
        rw [sinkConnsOf_cons_none rest net ha, ih,
          List.count_cons_of_ne hsa]

mutual

theorem travBound_tree (cells : Cells) (t : CTree) (parent counter : ℕ) :
    counter ≤ (traverse_tree cells t parent counter).1 ∧
    ∀ c ∈ (traverse_tree cells t parent counter).2.2,
      c.2.2 = parent ∨ (counter ≤ c.2.2 ∧
        c.2.2 < (traverse_tree cells t parent counter).1) := by
  cases t with
  | node buffer sinks children =>
      cases buffer with
      | some bnbt =>
          have hf := travBound_forest cells children counter (counter + 1)
          simp only [traverse_tree]
          refine ⟨le_trans (Nat.le_succ counter) hf.1, ?_⟩
          intro c hc
          simp only [List.mem_cons, List.mem_append] at hc
          rcases hc with rfl | rfl | hc | hc
          · exact Or.inl rfl
          · exact Or.inr ⟨le_refl _,
              lt_of_lt_of_le (Nat.lt_succ_self counter) hf.1⟩
          · rcases hf.2 c hc with h | ⟨ha, hb⟩
            · right
              omega
            · right
              omega
          · have := sinkConnsOf_net hc
            right
            omega
      | none =>
          have hf := travBound_forest cells children parent counter
          simp only [traverse_tree]
          refine ⟨hf.1, ?_⟩
          intro c hc
          simp only [List.mem_append] at hc
          rcases hc with hc | hc
          · exact hf.2 c hc
          · exact Or.inl (sinkConnsOf_net hc)

theorem travBound_forest (cells : Cells) (f : CForest) (parent counter : ℕ) :
    counter ≤ (traverse_forest cells f parent counter).1 ∧
    ∀ c ∈ (traverse_forest cells f parent counter).2.2,
      c.2.2 = parent ∨ (counter ≤ c.2.2 ∧
        c.2.2 < (traverse_forest cells f parent counter).1) := by
  cases f with
  | nil =>
      simp only [traverse_forest]
      exact ⟨le_refl _, by intro c hc; cases hc⟩
  | cons t ts =>
      have h1 := travBound_tree cells t parent counter
      have h2 := travBound_forest cells ts parent
        (traverse_tree cells t parent counter).1
      simp only [traverse_forest]
      refine ⟨le_trans h1.1 h2.1, ?_⟩
      intro c hc
      simp only [List.mem_append] at hc
      rcases hc with hc | hc
      · rcases h1.2 c hc with h | ⟨ha, hb⟩
        · exact Or.inl h
        · exact Or.inr ⟨ha, lt_of_lt_of_le hb h2.1⟩
      · rcases h2.2 c hc with h | ⟨ha, hb⟩
        · exact Or.inl h
        · exact Or.inr ⟨le_trans h1.1 ha, hb⟩

end

mutual

theorem travNames_tree (cells : Cells) (t : CTree) (parent counter : ℕ) :
    ((traverse_tree cells t parent counter).2.1).map BufRec.name =
      bufNames t := by
  cases t with
  | node buffer sinks children =>
      cases buffer with
      | some bnbt =>
          have hf := travNames_forest cells children counter (counter + 1)
          simp only [traverse_tree, bufNames, List.map_cons, hf]
          rfl
      | none =>
          have hf := travNames_forest cells children parent counter
          simp only [traverse_tree, bufNames, hf]
          rfl

theorem travNames_forest (cells : Cells) (f : CForest) (parent counter : ℕ) :
    ((traverse_forest cells f parent counter).2.1).map BufRec.name =
      bufNamesF f := by
  cases f with
  | nil => rfl
  | cons t ts =>
      have h1 := travNames_tree cells t parent counter
      have h2 := travNames_forest cells ts parent
        (traverse_tree cells t parent counter).1
      simp only [traverse_forest, List.map_append, h1, h2, bufNamesF]

end

mutual

theorem travFilter_tree (cells : Cells) (t : CTree) (parent counter : ℕ)
    {s : String} (hs : (cells.lookup s).isSome) (hnb : s ∉ bufNames t) :
    ∃ ns : List ℕ,
      ((traverse_tree cells t parent counter).2.2).filter
          (fun c => decide (c.1 = s)) =
        ns.map (fun n => (s, clockPinOf cells s, n)) ∧
      ns.length = (allSinks t).count s ∧
      ∀ n ∈ ns,
        n ∈ ((traverse_tree cells t parent counter).2.1).map BufRec.out_net
          ∨ n = parent := by
  cases t with
  | node buffer sinks children =>
      cases buffer with
      | some bnbt =>
          have hnb' : s ≠ bnbt.1 ∧ s ∉ bufNamesF children := by
            constructor
            · intro hh
              exact hnb (by simp [bufNames, hh])
            · intro hh
              exact hnb (by simp [bufNames, hh])
          obtain ⟨ns₁, hf1, hf2, hf3⟩ :=
            travFilter_forest cells children counter (counter + 1) hs hnb'.2
          refine ⟨ns₁ ++ List.replicate (sinks.count s) counter, ?_, ?_, ?_⟩
          · simp only [traverse_tree, List.filter_cons, List.filter_append]
            have hd1 : decide (bnbt.1 = s) = false := by
              simp only [decide_eq_false_iff_not]
              exact fun hh => hnb'.1 hh.symm
            simp only [hd1, if_neg Bool.false_ne_true]
            rw [hf1, sinkConnsOf_filter sinks counter hs,
              List.map_append, List.map_replicate]
          · simp only [List.length_append, List.length_replicate, hf2,
              allSinks, List.count_append]
          · intro n hn
            simp only [traverse_tree, List.map_cons]
            rcases List.mem_append.mp hn with hn | hn
            · rcases hf3 n hn with h | h
              · exact Or.inl (List.mem_cons_of_mem _ h)
              · exact Or.inl (h ▸ List.mem_cons_self _ _)
            · have := List.eq_of_mem_replicate hn
              exact Or.inl (this ▸ List.mem_cons_self _ _)
      | none =>
          have hnb' : s ∉ bufNamesF children := by
            intro hh
            exact hnb (by simp [bufNames, hh])
          obtain ⟨ns₁, hf1, hf2, hf3⟩ :=
            travFilter_forest cells children parent counter hs hnb'
          refine ⟨ns₁ ++ List.replicate (sinks.count s) parent, ?_, ?_, ?_⟩
          · simp only [traverse_tree, List.filter_append]
            rw [hf1, sinkConnsOf_filter sinks parent hs,
              List.map_append, List.map_replicate]
          · simp only [List.length_append, List.length_replicate, hf2,
              allSinks, List.count_append]
          · intro n hn
            simp only [traverse_tree]
            rcases List.mem_append.mp hn with hn | hn
            · exact hf3 n hn
            · exact Or.inr (List.eq_of_mem_replicate hn)

theorem travFilter_forest (cells : Cells) (f : CForest) (parent counter : ℕ)
    {s : String} (hs : (cells.lookup s).isSome) (hnb : s ∉ bufNamesF f) :
    ∃ ns : List ℕ,
      ((traverse_forest cells f parent counter).2.2).filter
          (fun c => decide (c.1 = s)) =
        ns.map (fun n => (s, clockPinOf cells s, n)) ∧
      ns.length = (allSinksF f).count s ∧
      ∀ n ∈ ns,
        n ∈ ((traverse_forest cells f parent counter).2.1).map BufRec.out_net
          ∨ n = parent := by
  cases f with
  | nil =>
      refine ⟨[], rfl, rfl, ?_⟩
      intro n hn
      cases hn
  | cons t ts =>
      have hnb1 : s ∉ bufNames t := by
        intro hh
        exact hnb (by simp [bufNamesF, hh])
      have hnb2 : s ∉ bufNamesF ts := by
        intro hh
        exact hnb (by simp [bufNamesF, hh])
      obtain ⟨ns₁, h11, h12, h13⟩ :=
        travFilter_tree cells t parent counter hs hnb1
      obtain ⟨ns₂, h21, h22, h23⟩ := travFilter_forest cells ts parent
        (traverse_tree cells t parent counter).1 hs hnb2
      refine ⟨ns₁ ++ ns₂, ?_, ?_, ?_⟩
      · simp only [traverse_forest, List.filter_append, h11, h21,
          List.map_append]
      · simp only [List.length_append, h12, h22, allSinksF,
          List.count_append]
      · intro n hn
        simp only [traverse_forest, List.map_append]
        rcases List.mem_append.mp hn with hn | hn
        · rcases h13 n hn with h | h
          · exact Or.inl (List.mem_append_left _ h)
          · exact Or.inr h
        · rcases h23 n hn with h | h
          · exact Or.inl (List.mem_append_right _ h)
          · exact Or.inr h

end

theorem foldlMax_le_init (l : List (ℕ × Net)) (m : ℕ) :
    m ≤ l.foldl (fun acc p => max acc p.1) m := by
  induction l generalizing m with
  | nil => exact le_refl m
  | cons p rest ih => exact le_trans (le_max_left m p.1) (ih (max m p.1))

theorem lookup_le_foldlMax (ns : Nets) {id : ℕ} (acc : ℕ)
    (h : (ns.lookup id).isSome) :
    id ≤ ns.foldl (fun acc p => max acc p.1) acc := by
  induction ns generalizing acc with
  | nil => simp [List.lookup] at h
  | cons p rest ih =>
      obtain ⟨p1, p2⟩ := p
      by_cases hip : id = p1
      · subst hip
        rw [List.foldl_cons]
        exact le_trans (le_max_right acc id) (foldlMax_le_init rest _)
      · rw [lookup_cons_ne p2 rest hip] at h
        rw [List.foldl_cons]
        exact ih _ h

theorem lookup_le_maxNetId {ns : Nets} {id : ℕ}
    (h : (ns.lookup id).isSome) : id ≤ maxNetId ns :=
  lookup_le_foldlMax ns 0 h

theorem connKeyStep_prefix (l : List Conn) :
    ∀ acc : List ℕ, ∃ ex, l.foldl connKeyStep acc = acc ++ ex := by
  induction l with
  | nil => exact fun acc => ⟨[], (List.append_nil acc).symm⟩
  | cons c rest ih =>
      intro acc
      by_cases hc : acc.contains c.2.2
      · obtain ⟨ex, hex⟩ := ih acc
        refine ⟨ex, ?_⟩
        rw [List.foldl_cons]
        have hstep : connKeyStep acc c = acc := by
          unfold connKeyStep
          rw [if_pos hc]
        rw [hstep, hex]
      · obtain ⟨ex, hex⟩ := ih (acc ++ [c.2.2])
        refine ⟨c.2.2 :: ex, ?_⟩
        rw [List.foldl_cons]
        have hstep : connKeyStep acc c = acc ++ [c.2.2] := by
          unfold connKeyStep
          rw [if_neg hc]
        rw [hstep, hex, List.append_assoc]
        rfl

theorem connKeys_nodup_aux (l : List Conn) :
    ∀ acc : List ℕ, acc.Nodup → (l.foldl connKeyStep acc).Nodup := by
  induction l with
  | nil => exact fun acc h => h
  | cons c rest ih =>
      intro acc hn
      rw [List.foldl_cons]
      apply ih
      unfold connKeyStep
      by_cases hc : acc.contains c.2.2
      · rw [if_pos hc]
        exact hn
      · rw [if_neg hc]
        have hm : c.2.2 ∉ acc := by
          intro hm
          exact hc (by simpa using hm)
        simp [List.nodup_append, hn, hm]

theorem connKeys_head (c₀ : Conn) (tail : List Conn) :
    ∃ ex : List ℕ, connKeys (c₀ :: tail) = c₀.2.2 :: ex ∧ c₀.2.2 ∉ ex := by
  obtain ⟨ex, hex⟩ := connKeyStep_prefix tail [c₀.2.2]
  refine ⟨ex, ?_, ?_⟩
  · show (c₀ :: tail).foldl connKeyStep [] = _
    rw [List.foldl_cons]
    have h0 : connKeyStep [] c₀ = [c₀.2.2] := rfl
    rw [h0, hex]
    rfl
  · have hn := connKeys_nodup_aux tail [c₀.2.2] (by simp)
    rw [hex, List.singleton_append] at hn
    exact (List.nodup_cons.mp hn).1

theorem netUpdate_preserve (conns : List Conn) (keys : List ℕ) {k : ℕ}
    {v : Net} :
    ∀ ns : Nets, k ∉ keys → ns.lookup k = some v →
    (keys.foldl (netUpdateStep conns) ns).lookup k = some v := by
  induction keys with
  | nil => exact fun ns _ h => h
  | cons id rest ih =>
      intro ns hk hv
      rw [List.foldl_cons]
      have hkid : k ≠ id := fun hh => hk (hh ▸ List.mem_cons_self id rest)
      apply ih _ (fun hh => hk (List.mem_cons_of_mem _ hh))
      simp only [netUpdateStep]
      by_cases hex : (ns.lookup id).isSome
      · rw [if_pos hex, netsModify_lookup_ne _ _ hkid]
        exact hv
      · rw [if_neg hex, netsModify_lookup_ne _ _ hkid,
          lookup_append_single_ne _ _ hkid]
        exact hv

theorem pinStep_lookup_ne (cs : Cells) (c : Conn) {s : String}
    (h : c.1 ≠ s) : (pinUpdateStep cs c).lookup s = cs.lookup s := by
  unfold pinUpdateStep
  by_cases h1 : (cs.lookup c.1).isSome
  · rw [if_pos h1]
    exact cellsModify_lookup_ne cs _ (fun hh => h hh.symm)
  · rw [if_neg h1]

theorem applyPinUpdates_none (l : List Conn) {s : String} :
    ∀ cs : Cells, (∀ c ∈ l, c.1 ≠ s) →
    (applyPinUpdates cs l).lookup s = cs.lookup s := by
  induction l with
  | nil =>
      intro cs _
      rfl
  | cons c rest ih =>
      intro cs h
      unfold applyPinUpdates
      rw [List.foldl_cons]
      exact (ih (pinUpdateStep cs c)
          (fun c' hc' => h c' (List.mem_cons_of_mem _ hc'))).trans
        (pinStep_lookup_ne cs c (h c (List.mem_cons_self _ _)))

theorem applyPinUpdates_single (l : List Conn) {s pn : String} {n : ℕ} :
    ∀ (cs : Cells) (cell : LCell),
    l.filter (fun c => decide (c.1 = s)) = [(s, pn, n)] →
    cs.lookup s = some cell →
    (applyPinUpdates cs l).lookup s =
      some ⟨cell.ctype, pinsSet cell.pins pn n⟩ := by
  induction l with
  | nil =>
      intro cs cell hf _
      simp at hf
  | cons c rest ih =>
      intro cs cell hf hc
      rw [List.filter_cons] at hf
      by_cases hcs : c.1 = s
      · have hd : decide (c.1 = s) = true := by simp [hcs]
        rw [hd, if_pos rfl] at hf
        injection hf with hf1 hf2
        subst hf1
        unfold applyPinUpdates
        rw [List.foldl_cons]
        have hrest : ∀ c' ∈ rest, c'.1 ≠ s := by
          intro c' hc' heq
          have := List.filter_eq_nil_iff.mp hf2 c' hc'
          simp [heq] at this
        have hstep : (pinUpdateStep cs (s, pn, n)).lookup s =
            some ⟨cell.ctype, pinsSet cell.pins pn n⟩ := by
          unfold pinUpdateStep
          have h1 : (cs.lookup (s, pn, n).1).isSome := by
            dsimp only
            rw [hc]
            rfl
          rw [if_pos h1]
          exact cellsModify_lookup_self _ hc
        exact (applyPinUpdates_none rest _ hrest).trans hstep
      · have hd : decide (c.1 = s) = false := by simp [hcs]
        rw [hd, if_neg Bool.false_ne_true] at hf
        unfold applyPinUpdates
        rw [List.foldl_cons]
        exact ih (pinUpdateStep cs c) cell hf
          (by rw [pinStep_lookup_ne cs c hcs]; exact hc)

theorem addBuffers_lookup_ne (bufs : List BufRec) {s : String} :
    ∀ cs : Cells, (∀ b ∈ bufs, b.name ≠ s) →
    (addBuffers cs bufs).lookup s = cs.lookup s := by
  induction bufs with
  | nil =>
      intro cs _
      rfl
  | cons b rest ih =>
      intro cs h
      unfold addBuffers
      rw [List.foldl_cons]
      exact (ih _ (fun b' hb' => h b' (List.mem_cons_of_mem _ hb'))).trans
        (cellsSet_lookup_ne cs _
          (fun hh => h b (List.mem_cons_self b rest) hh.symm))

/-- C2 counterexample: one DFF `ff1` with clock pin `C` on clock net 5 and
a single-node buffered tree.  After `update_logical_db_and_graph` the
original clock net carries TWO connections — the clock port and the root
buffer input `(buf1, A)` — not exactly one; and since the removal step
deleted pin `C` before the traversal re-checks `'C' in pins`, the DFF's
clock is reattached on a freshly created `CLK` pin while `C` stays absent. -/
theorem claim_C2_counterexample :
    ((update_logical_db_and_graph
        ⟨[("ff1", ⟨"dff", [("C", 5), ("D", 2)]⟩)],
         [(2, ⟨"net_2", [("ff1", "D")]⟩),
          (5, ⟨"clk", [("clk", "PORT"), ("ff1", "C")]⟩)],
         [("dff", ["ff1"])]⟩
        (build_netlist_graph
          [(2, ⟨"net_2", [("ff1", "D")]⟩),
           (5, ⟨"clk", [("clk", "PORT"), ("ff1", "C")]⟩)])
        "clk" 5
        (CTree.node (some ("buf1", "BUF")) ["ff1"] CForest.nil)).1.nets.lookup
          5).map Net.connections =
      some [("clk", "PORT"), ("buf1", "A")] ∧
    ((update_logical_db_and_graph
        ⟨[("ff1", ⟨"dff", [("C", 5), ("D", 2)]⟩)],
         [(2, ⟨"net_2", [("ff1", "D")]⟩),
          (5, ⟨"clk", [("clk", "PORT"), ("ff1", "C")]⟩)],
         [("dff", ["ff1"])]⟩
        (build_netlist_graph
          [(2, ⟨"net_2", [("ff1", "D")]⟩),
           (5, ⟨"clk", [("clk", "PORT"), ("ff1", "C")]⟩)])
        "clk" 5
        (CTree.node (some ("buf1", "BUF")) ["ff1"] CForest.nil)).1.cells.lookup
          "ff1").map LCell.pins =
      some [("D", 2), ("CLK", 6)] ∧
    ([("clk", "PORT"), ("buf1", "A")] : List (String × String)).length ≠ 1 := by
  refine ⟨rfl, rfl, by decide⟩

/-- C2 amended: for a buffered clock tree over a design whose clock net
`clock_net_id` is known and whose DFF sink `s` appears once in the tree,
carries the clock on pin `C` and is listed on the old clock net, the CTS
rewrite leaves the original clock net with TWO connections — the clock
port followed by the root buffer input `(root, A)` — and reattaches the
sink's clock on a freshly created `CLK` pin (pin `C` stays deleted),
driven by the output net of one of the inserted clock-tree buffers. -/
theorem claim_C2_amended (db : LogicalDb) (g : Graph) (clock_net : String)
    (clock_net_id : ℕ) (tree : CTree) (old_net : Net) (s : String)
    (cell : LCell)
    (hid : clock_net_id ≠ 0)
    (hnet : db.nets.lookup clock_net_id = some old_net)
    (hroot : rootHasBuffer tree)
    (hcnt : (allSinks tree).count s = 1)
    (hnb : s ∉ bufNames tree)
    (hcell : db.cells.lookup s = some cell)
    (hC : cell.pins.lookup "C" = some clock_net_id)
    (hconn : (s, "C") ∈ old_net.connections)
    (hsp : s ≠ clock_net) :
    (update_logical_db_and_graph db g clock_net clock_net_id
        tree).1.nets.lookup clock_net_id =
      some ⟨old_net.name, [(clock_net, "PORT"), (rootBufName tree, "A")]⟩ ∧
    ∃ d : LCell,
      (update_logical_db_and_graph db g clock_net clock_net_id
          tree).1.cells.lookup s = some d ∧
      d.pins.lookup "C" = none ∧
      ∃ out : ℕ, d.pins.lookup "CLK" = some out ∧
        out ∈ ctsBufferOutNets db g clock_net clock_net_id tree := by
  obtain ⟨buffer, rsinks, children⟩ := tree
  cases buffer with
  | none => exact absurd hroot (by simp [rootHasBuffer])
  | some bnbt =>
      simp only [update_logical_db_and_graph, ctsBufferOutNets, rootBufName]
      have hrem : remove_old_clock_connections db g clock_net clock_net_id =
          (⟨removeClockPins db.cells clock_net clock_net_id
              old_net.connections,
            netsModifyConnections db.nets clock_net_id
              (fun _ => [(clock_net, "PORT")]),
            db.cells_by_type⟩,
           removeClockEdges g clock_net_id) := by
        unfold remove_old_clock_connections
        rw [if_neg hid, hnet]
      rw [hrem]
      dsimp only
      set cells₁ := removeClockPins db.cells clock_net clock_net_id
        old_net.connections with hcellsdef
      set nets₁ := netsModifyConnections db.nets clock_net_id
        (fun _ => [(clock_net, "PORT")]) with hnetsdef
      set cnt := maxNetId nets₁ + 1 with hcntdef
      have hn1 : nets₁.lookup clock_net_id =
          some ⟨old_net.name, [(clock_net, "PORT")]⟩ :=
        netsModify_lookup_self _ hnet
      have hle : clock_net_id ≤ maxNetId nets₁ :=
        lookup_le_maxNetId (by rw [hn1]; rfl)
      obtain ⟨c₁, hc₁, hc₁C⟩ := removeClockPins_main hsp hconn hcell hC
      have hc₁' : cells₁.lookup s = some c₁ := hc₁
      have hs₁ : (cells₁.lookup s).isSome := by
        rw [hc₁']
        rfl
      have hpin : clockPinOf cells₁ s = "CLK" := by
        unfold clockPinOf
        rw [hc₁']
        dsimp only
        rw [hc₁C]
        rfl
      set rec₁ := traverse_forest cells₁ children cnt (cnt + 1) with hrecdef
      set conns := ((bnbt.1, "A", clock_net_id) : Conn) ::
        ((bnbt.1, "Y", cnt) : Conn) ::
        (rec₁.2.2 ++ sinkConnsOf cells₁ rsinks cnt) with hconnsdef
      set bufs := (⟨bnbt.1, bnbt.2, clock_net_id, cnt⟩ : BufRec) ::
        rec₁.2.1 with hbufsdef
      have htr : traverse_tree cells₁
          (CTree.node (some bnbt) rsinks children) clock_net_id cnt =
          (rec₁.1, bufs, conns) := rfl
      rw [htr]
      dsimp only
      constructor
      · have h2 : decide (cnt = clock_net_id) = false := by
          simp only [decide_eq_false_iff_not]
          omega
        have h3 : rec₁.2.2.filter
            (fun c => decide (c.2.2 = clock_net_id)) = [] := by
          rw [List.filter_eq_nil_iff]
          intro c hc
          have hb := (travBound_forest cells₁ children cnt (cnt + 1)).2 c hc
          simp only [decide_eq_true_eq]
          rcases hb with h | ⟨ha, _⟩ <;> omega
        have h4 : (sinkConnsOf cells₁ rsinks cnt).filter
            (fun c => decide (c.2.2 = clock_net_id)) = [] := by
          rw [List.filter_eq_nil_iff]
          intro c hc
          have := sinkConnsOf_net hc
          simp only [decide_eq_true_eq]
          omega
        have hgroup : conns.filter
            (fun c => decide (c.2.2 = clock_net_id)) =
            [(bnbt.1, "A", clock_net_id)] := by
          rw [hconnsdef]
          simp only [List.filter_cons, List.filter_append, h2, h3, h4,
            if_neg Bool.false_ne_true]
          simp
        obtain ⟨ex, hkeys, hnex⟩ := connKeys_head
          (bnbt.1, "A", clock_net_id)
          (((bnbt.1, "Y", cnt) : Conn) ::
            (rec₁.2.2 ++ sinkConnsOf cells₁ rsinks cnt))
        have hkeys' : connKeys conns = clock_net_id :: ex := by
          rw [hconnsdef]
          exact hkeys
        unfold applyNetUpdates
        rw [hkeys', List.foldl_cons]
        have hstep : netUpdateStep conns nets₁ clock_net_id =
            netsModifyConnections nets₁ clock_net_id
              (fun cs => cs ++ connGroup conns clock_net_id) := by
          simp only [netUpdateStep]
          rw [if_pos (by rw [hn1]; rfl)]
        rw [hstep]
        have hcg : connGroup conns clock_net_id = [(bnbt.1, "A")] := by
          unfold connGroup
          rw [hgroup]
          rfl
        have hmod : (netsModifyConnections nets₁ clock_net_id
            (fun cs => cs ++ connGroup conns clock_net_id)).lookup
              clock_net_id =
            some ⟨old_net.name, [(clock_net, "PORT"), (bnbt.1, "A")]⟩ := by
          rw [netsModify_lookup_self _ hn1, hcg]
          rfl
        exact netUpdate_preserve conns ex _ hnex hmod
      · have hnm := travNames_tree cells₁
          (CTree.node (some bnbt) rsinks children) clock_net_id cnt
        rw [htr] at hnm
        dsimp only at hnm
        have hbn : ∀ b ∈ bufs, b.name ≠ s := by
          intro b hb heq
          apply hnb
          rw [← hnm]
          exact heq ▸ List.mem_map_of_mem BufRec.name hb
        have hcells₂ : (addBuffers cells₁ bufs).lookup s = some c₁ := by
          rw [addBuffers_lookup_ne bufs cells₁ hbn]
          exact hc₁'
        have hsnbF : s ∉ bufNamesF children := by
          intro hh
          apply hnb
          simp [bufNames, hh]
        obtain ⟨ns₁, hf1, hf2, hf3⟩ :=
          travFilter_forest cells₁ children cnt (cnt + 1) hs₁ hsnbF
        have hsplit : (allSinksF children).count s + rsinks.count s = 1 := by
          have h := hcnt
          rw [show allSinks (CTree.node (some bnbt) rsinks children) =
              allSinksF children ++ rsinks from rfl,
            List.count_append] at h
          exact h
        have hcnt2 : ns₁.length + rsinks.count s = 1 := by
          rw [hf2]
          exact hsplit
        have hd1 : decide (bnbt.1 = s) = false := by
          simp only [decide_eq_false_iff_not]
          exact fun hh =>
            hbn ⟨bnbt.1, bnbt.2, clock_net_id, cnt⟩
              (List.mem_cons_self _ _) hh
        have hfilter : conns.filter (fun c => decide (c.1 = s)) =
            (ns₁ ++ List.replicate (rsinks.count s) cnt).map
              (fun n => (s, "CLK", n)) := by
          rw [hconnsdef]
          simp only [List.filter_cons, List.filter_append, hd1,
            if_neg Bool.false_ne_true]
          rw [hf1, sinkConnsOf_filter rsinks cnt hs₁, hpin,
            List.map_append, List.map_replicate]
        obtain ⟨nOut, hns⟩ : ∃ nOut,
            ns₁ ++ List.replicate (rsinks.count s) cnt = [nOut] := by
          apply List.length_eq_one.mp
          rw [List.length_append, List.length_replicate]
          exact hcnt2
        have hout : nOut ∈ bufs.map BufRec.out_net := by
          have hmem : nOut ∈ ns₁ ++ List.replicate (rsinks.count s) cnt := by
            rw [hns]
            exact List.mem_singleton.mpr rfl
          rw [hbufsdef, List.map_cons]
          rcases List.mem_append.mp hmem with hm | hm
          · rcases hf3 nOut hm with h | h
            · exact List.mem_cons_of_mem _ h
            · exact h ▸ List.mem_cons_self _ _
          · have h := List.eq_of_mem_replicate hm
            exact h ▸ List.mem_cons_self _ _
        have hfin := applyPinUpdates_single conns (addBuffers cells₁ bufs)
          c₁ (by rw [hfilter, hns]; rfl) hcells₂
        refine ⟨⟨c₁.ctype, pinsSet c₁.pins "CLK" nOut⟩, hfin, ?_, nOut,
          ?_, hout⟩
        · dsimp only
          rw [pinsSet_lookup_ne c₁.pins nOut (by decide)]
          exact hc₁C
        · dsimp only
          exact pinsSet_lookup_self c₁.pins "CLK" nOut

theorem claim_C2_amended_witness :
    (5 : ℕ) ≠ 0 ∧
    ((update_logical_db_and_graph
        ⟨[("ff1", ⟨"dff", [("D", 2), ("C", 5)]⟩)],
         [(5, ⟨"clk", [("clk", "PORT"), ("ff1", "C")]⟩)],
         [("dff", ["ff1"])]⟩
        [] "clk" 5
        (CTree.node (some ("buf1", "BUF")) ["ff1"]
          CForest.nil)).1.nets.lookup 5 =
      some ⟨"clk", [("clk", "PORT"),
        (rootBufName (CTree.node (some ("buf1", "BUF")) ["ff1"]
          CForest.nil), "A")]⟩ ∧
     ∃ d : LCell,
      (update_logical_db_and_graph
        ⟨[("ff1", ⟨"dff", [("D", 2), ("C", 5)]⟩)],
         [(5, ⟨"clk", [("clk", "PORT"), ("ff1", "C")]⟩)],
         [("dff", ["ff1"])]⟩
        [] "clk" 5
        (CTree.node (some ("buf1", "BUF")) ["ff1"]
          CForest.nil)).1.cells.lookup "ff1" = some d ∧
      d.pins.lookup "C" = none ∧
      ∃ out : ℕ, d.pins.lookup "CLK" = some out ∧
        out ∈ ctsBufferOutNets
          ⟨[("ff1", ⟨"dff", [("D", 2), ("C", 5)]⟩)],
           [(5, ⟨"clk", [("clk", "PORT"), ("ff1", "C")]⟩)],
           [("dff", ["ff1"])]⟩
          [] "clk" 5
          (CTree.node (some ("buf1", "BUF")) ["ff1"] CForest.nil)) :=
  ⟨by decide,
   claim_C2_amended
    ⟨[("ff1", ⟨"dff", [("D", 2), ("C", 5)]⟩)],
     [(5, ⟨"clk", [("clk", "PORT"), ("ff1", "C")]⟩)],
     [("dff", ["ff1"])]⟩
    [] "clk" 5
    (CTree.node (some ("buf1", "BUF")) ["ff1"] CForest.nil)
    ⟨"clk", [("clk", "PORT"), ("ff1", "C")]⟩ "ff1"
    ⟨"dff", [("D", 2), ("C", 5)]⟩
    (by decide) rfl rfl (by decide) (by decide) rfl rfl (by decide)
    (by decide)⟩

/-!  ## Pair and edge lemmas -/

theorem samePair_refl (a b : String) : samePair a b a b := Or.inl ⟨rfl, rfl⟩

theorem samePair_symm {a b c d : String} (h : samePair a b c d) :
    samePair c d a b := by
  unfold samePair at *; tauto

theorem samePair_trans {a b c d e f : String}
    (h1 : samePair a b c d) (h2 : samePair c d e f) : samePair a b e f := by
  unfold samePair at *
  rcases h1 with ⟨h1a, h1b⟩ | ⟨h1a, h1b⟩ <;> subst h1a <;> subst h1b <;> tauto

theorem samePair_congr {x y a b c d : String} (h : samePair a b c d) :
    samePair x y a b ↔ samePair x y c d :=
  ⟨fun h2 => samePair_trans h2 h, fun h2 => samePair_trans h2 (samePair_symm h)⟩

theorem samePair_of_left {u v a b c d : String}
    (h1 : samePair u v a b) (h2 : samePair u v c d) : samePair a b c d :=
  samePair_trans (samePair_symm h1) h2

theorem lookupEdge_congr {g : Graph} {a b c d : String} (h : samePair a b c d) :
    lookupEdge g a b = lookupEdge g c d := by
  induction g with
  | nil => rfl
  | cons e es ih =>
      by_cases he : sameEdge e a b
      · have he' : sameEdge e c d := by
          unfold sameEdge at *; exact (samePair_congr h).mp he
        simp [lookupEdge, he, he']
      · have he' : ¬ sameEdge e c d := by
          unfold sameEdge at *
          exact fun hcd => he ((samePair_congr h).mpr hcd)
        simp [lookupEdge, he, he', ih]

theorem lookupEdge_none_of_forall {g : Graph} {c d : String}
    (h : ∀ y ∈ g, ¬ sameEdge y c d) : lookupEdge g c d = none := by
  induction g with
  | nil => rfl
  | cons e es ih =>
      have he : ¬ sameEdge e c d := h e (List.mem_cons_self e es)
      simp [lookupEdge, he]
      exact ih (fun y hy => h y (List.mem_cons_of_mem e hy))

theorem forall_of_lookupEdge_none {g : Graph} {c d : String}
    (h : lookupEdge g c d = none) : ∀ y ∈ g, ¬ sameEdge y c d := by
  induction g with
  | nil => intro y hy; cases hy
  | cons e es ih =>
      intro y hy
      by_cases he : sameEdge e c d
      · simp [lookupEdge, he] at h
      · simp [lookupEdge, he] at h
        rcases List.mem_cons.mp hy with rfl | hy'
        · exact he
        · exact ih h y hy'

theorem lookupEdge_addEdge_some {g : Graph} {a b nm : String} {id : ℕ}
    {e₀ : GEdge} (h : lookupEdge g a b = some e₀) :
    lookupEdge (addEdge g a b nm id) a b =
      some { e₀ with nets := e₀.nets ++ [nm] } := by
  induction g with
  | nil => simp [lookupEdge] at h
  | cons e es ih =>
      by_cases he : sameEdge e a b
      · simp [lookupEdge, he] at h
        subst h
        have he2 : sameEdge { e with nets := e.nets ++ [nm] } a b := he
        simp [addEdge, he, lookupEdge, he2]
      · simp [lookupEdge, he] at h
        simp [addEdge, he, lookupEdge, ih h]

theorem lookupEdge_addEdge_none {g : Graph} {a b nm : String} {id : ℕ}
    (h : lookupEdge g a b = none) :
    lookupEdge (addEdge g a b nm id) a b = some ⟨a, b, [nm], id⟩ := by
  induction g with
  | nil =>
      have : sameEdge (⟨a, b, [nm], id⟩ : GEdge) a b := samePair_refl a b
      simp [addEdge, lookupEdge, this]
  | cons e es ih =>
      by_cases he : sameEdge e a b
      · simp [lookupEdge, he] at h
      · simp [lookupEdge, he] at h
        simp [addEdge, he, lookupEdge, ih h]

theorem lookupEdge_addEdge_other {g : Graph} {a b nm c d : String} {id : ℕ}
    (h : ¬ samePair a b c d) :
    lookupEdge (addEdge g a b nm id) c d = lookupEdge g c d := by
  induction g with
  | nil =>
      have : ¬ sameEdge (⟨a, b, [nm], id⟩ : GEdge) c d := h
      simp [addEdge, lookupEdge, this]
  | cons e es ih =>
      by_cases he : sameEdge e a b
      · have he2 : ¬ sameEdge e c d := by
          intro hcd
          exact h (samePair_of_left he hcd)
        have he3 : ¬ sameEdge { e with nets := e.nets ++ [nm] } c d := he2
        simp [addEdge, he, lookupEdge, he2, he3]
      · by_cases hcd : sameEdge e c d
        · simp [addEdge, he, lookupEdge, hcd]
        · simp [addEdge, he, lookupEdge, hcd, ih]

theorem mem_addEdge {g : Graph} {a b nm : String} {id : ℕ} {y : GEdge}
    (hy : y ∈ addEdge g a b nm id) :
    (∃ x ∈ g, y.u = x.u ∧ y.v = x.v) ∨ (y.u = a ∧ y.v = b) := by
  induction g with
  | nil =>
      simp [addEdge] at hy
      subst hy; right; exact ⟨rfl, rfl⟩
  | cons e es ih =>
      by_cases he : sameEdge e a b
      · simp [addEdge, he] at hy
        rcases hy with rfl | hy'
        · exact Or.inl ⟨e, List.mem_cons_self e es, rfl, rfl⟩
        · exact Or.inl ⟨y, List.mem_cons_of_mem e hy', rfl, rfl⟩
      · simp [addEdge, he] at hy
        rcases hy with rfl | hy'
        · exact Or.inl ⟨y, List.mem_cons_self y es, rfl, rfl⟩
        · rcases ih hy' with ⟨x, hx, hxy⟩ | hab
          · exact Or.inl ⟨x, List.mem_cons_of_mem e hx, hxy⟩
          · exact Or.inr hab

theorem uniquePairs_addEdge {g : Graph} {a b nm : String} {id : ℕ}
    (h : uniquePairs g) : uniquePairs (addEdge g a b nm id) := by
  induction g with
  | nil => simp [addEdge, uniquePairs]
  | cons e es ih =>
      rcases List.pairwise_cons.mp h with ⟨hd, tl⟩
      by_cases he : sameEdge e a b
      · simp only [addEdge, if_pos he]
        exact List.pairwise_cons.mpr ⟨fun y hy => hd y hy, tl⟩
      · simp only [addEdge, if_neg he]
        refine List.pairwise_cons.mpr ⟨?_, ih tl⟩
        intro y hy
        rcases mem_addEdge hy with ⟨x, hx, hyu, hyv⟩ | ⟨hyu, hyv⟩
        · unfold pairDisjoint
          rw [hyu, hyv]
          exact hd x hx
        · unfold pairDisjoint
          rw [hyu, hyv]
          exact he

theorem lookupEdge_addPairs_other {nm : String} {id : ℕ}
    {ps : List (String × String)} {c d : String} :
    ∀ {g : Graph}, (∀ p ∈ ps, ¬ samePair p.1 p.2 c d) →
    lookupEdge (addPairs g nm id ps) c d = lookupEdge g c d := by
  induction ps with
  | nil => intro g _; rfl
  | cons p ps ih =>
      intro g h
      have hp : ¬ samePair p.1 p.2 c d := h p (List.mem_cons_self p ps)
      simp only [addPairs]
      rw [ih (fun q hq => h q (List.mem_cons_of_mem p hq)),
        lookupEdge_addEdge_other hp]

theorem uniquePairs_addPairs {nm : String} {id : ℕ}
    {ps : List (String × String)} :
    ∀ {g : Graph}, uniquePairs g → uniquePairs (addPairs g nm id ps) := by
  induction ps with
  | nil => intro g h; exact h
  | cons p ps ih =>
      intro g h
      exact ih (uniquePairs_addEdge h)

theorem lookupEdge_addPairs_some {nm : String} {id : ℕ}
    {ps : List (String × String)} {c d : String} :
    ∀ {g : Graph} {e₀ : GEdge}, lookupEdge g c d = some e₀ →
    ∃ e', lookupEdge (addPairs g nm id ps) c d = some e' ∧
      e'.net_id = e₀.net_id ∧ (∀ x ∈ e₀.nets, x ∈ e'.nets) ∧
      ((∃ p ∈ ps, samePair p.1 p.2 c d) → nm ∈ e'.nets) := by
  induction ps with
  | nil =>
      intro g e₀ h
      exact ⟨e₀, h, rfl, fun x hx => hx, by simp⟩
  | cons p ps ih =>
      intro g e₀ h
      by_cases hp : samePair p.1 p.2 c d
      · have hpq : lookupEdge g p.1 p.2 = some e₀ := by
          rw [lookupEdge_congr hp]; exact h
        have h1 : lookupEdge (addEdge g p.1 p.2 nm id) c d =
            some { e₀ with nets := e₀.nets ++ [nm] } := by
          rw [← lookupEdge_congr hp]
          exact lookupEdge_addEdge_some hpq
        rcases ih h1 with ⟨e', he', hid, hsub, _⟩
        refine ⟨e', he', hid, ?_, ?_⟩
        · intro x hx
          exact hsub x (by simp [hx])
        · intro _
          exact hsub nm (by simp)
      · have h1 : lookupEdge (addEdge g p.1 p.2 nm id) c d = some e₀ := by
          rw [lookupEdge_addEdge_other hp]; exact h
        rcases ih h1 with ⟨e', he', hid, hsub, hnm⟩
        refine ⟨e', he', hid, hsub, ?_⟩
        rintro ⟨q, hq, hqp⟩
        rcases List.mem_cons.mp hq with rfl | hq'
        · exact absurd hqp hp
        · exact hnm ⟨q, hq', hqp⟩

theorem lookupEdge_addPairs_none {nm : String} {id : ℕ}
    {ps : List (String × String)} {c d : String} :
    ∀ {g : Graph}, lookupEdge g c d = none →
    (∃ p ∈ ps, samePair p.1 p.2 c d) →
    ∃ e', lookupEdge (addPairs g nm id ps) c d = some e' ∧
      e'.net_id = id ∧ nm ∈ e'.nets := by
  induction ps with
  | nil => intro g _ hex; simp at hex
  | cons p ps ih =>
      intro g hnone hex
      by_cases hp : samePair p.1 p.2 c d
      · have hpq : lookupEdge g p.1 p.2 = none := by
          rw [lookupEdge_congr hp]; exact hnone
        have h1 : lookupEdge (addEdge g p.1 p.2 nm id) c d =
            some ⟨p.1, p.2, [nm], id⟩ := by
          rw [← lookupEdge_congr hp]
          exact lookupEdge_addEdge_none hpq
        rcases @lookupEdge_addPairs_some nm id ps c d _ _ h1 with
          ⟨e', he', hid, hsub, _⟩
        exact ⟨e', he', hid, hsub nm (by simp)⟩
      · have h1 : lookupEdge (addEdge g p.1 p.2 nm id) c d = none := by
          rw [lookupEdge_addEdge_other hp]; exact hnone
        rcases hex with ⟨q, hq, hqp⟩
        rcases List.mem_cons.mp hq with rfl | hq'
        · exact absurd hqp hp
        · exact ih h1 ⟨q, hq', hqp⟩

theorem accept_move_improving (delta_cost temperature u : ℚ)
    (h : delta_cost < 0) : accept_move delta_cost temperature u = true := by
  simp [accept_move, h]

theorem accept_move_cold (delta_cost temperature u : ℚ)
    (h0 : 0 ≤ delta_cost) (hT : temperature ≤ 0) :
    accept_move delta_cost temperature u = false := by
  simp [accept_move, not_lt.mpr h0, hT]

theorem accept_move_metropolis (delta_cost temperature u : ℚ)
    (h0 : 0 ≤ delta_cost) (hT : 0 < temperature) :
    (accept_move delta_cost temperature u = true ↔
      ((u : ℝ)) < Real.exp (-(delta_cost : ℝ) / (temperature : ℝ))) := by
  simp [accept_move, not_lt.mpr h0, not_le.mpr hT]

theorem lookupEdge_addNetEdges_other {g : Graph} {id : ℕ} {net : Net}
    {c d : String} (h : ¬ connectsPair net c d) :
    lookupEdge (addNetEdges g id net) c d = lookupEdge g c d := by
  unfold addNetEdges
  simp only [List.length_map]
  by_cases hlen : net.connections.length ≤ 1
  · simp [hlen]
  · simp only [if_neg hlen]
    refine lookupEdge_addPairs_other ?_
    intro p hp hpcd
    refine h ⟨?_, p, hp, hpcd⟩
    rw [List.length_map]
    exact Nat.lt_of_not_le hlen

theorem lookupEdge_addNetEdges_some {g : Graph} {id : ℕ} {net : Net}
    {c d : String} {e₀ : GEdge} (h : lookupEdge g c d = some e₀) :
    ∃ e', lookupEdge (addNetEdges g id net) c d = some e' ∧
      e'.net_id = e₀.net_id ∧ (∀ x ∈ e₀.nets, x ∈ e'.nets) ∧
      (connectsPair net c d → net.name ∈ e'.nets) := by
  unfold addNetEdges
  simp only [List.length_map]
  by_cases hlen : net.connections.length ≤ 1
  · refine ⟨e₀, by simp [hlen, h], rfl, fun x hx => hx, ?_⟩
    intro hc
    have := hc.1
    rw [List.length_map] at this
    exact absurd this (Nat.not_lt.mpr hlen)
  · simp only [if_neg hlen]
    rcases @lookupEdge_addPairs_some net.name id
        (pairsOf (net.connections.map Prod.fst)) c d g e₀ h with
      ⟨e', he', hid, hsub, hnm⟩
    exact ⟨e', he', hid, hsub, fun hc => hnm hc.2⟩

theorem lookupEdge_addNetEdges_none {g : Graph} {id : ℕ} {net : Net}
    {c d : String} (h : lookupEdge g c d = none) (hc : connectsPair net c d) :
    ∃ e', lookupEdge (addNetEdges g id net) c d = some e' ∧
      e'.net_id = id ∧ net.name ∈ e'.nets := by
  unfold addNetEdges
  simp only [List.length_map]
  have hlen : ¬ net.connections.length ≤ 1 := by
    have := hc.1
    rw [List.length_map] at this
    exact Nat.not_le.mpr this
  simp only [if_neg hlen]
  exact lookupEdge_addPairs_none h hc.2

theorem uniquePairs_addNetEdges {g : Graph} {id : ℕ} {net : Net}
    (h : uniquePairs g) : uniquePairs (addNetEdges g id net) := by
  unfold addNetEdges
  simp only [List.length_map]
  by_cases hlen : net.connections.length ≤ 1
  · simp [hlen, h]
  · simp only [if_neg hlen]
    exact uniquePairs_addPairs h

theorem uniquePairs_buildGraphAux {nets : Nets} :
    ∀ {g : Graph}, uniquePairs g → uniquePairs (buildGraphAux g nets) := by
  induction nets with
  | nil => intro g h; exact h
  | cons n rest ih => intro g h; exact ih (uniquePairs_addNetEdges h)

theorem buildGraphAux_spec (nets : Nets) :
    ∀ (g : Graph) (c d : String),
    (∀ e₀, lookupEdge g c d = some e₀ →
      ∃ e', lookupEdge (buildGraphAux g nets) c d = some e' ∧
        e'.net_id = e₀.net_id ∧ (∀ x ∈ e₀.nets, x ∈ e'.nets) ∧
        ∀ p ∈ nets, connectsPair p.2 c d → p.2.name ∈ e'.nets) ∧
    (lookupEdge g c d = none →
      (∀ id, firstConnecting nets c d = some id →
        ∃ e', lookupEdge (buildGraphAux g nets) c d = some e' ∧
          e'.net_id = id ∧
          ∀ p ∈ nets, connectsPair p.2 c d → p.2.name ∈ e'.nets) ∧
      (firstConnecting nets c d = none →
        lookupEdge (buildGraphAux g nets) c d = none)) := by
  induction nets with
  | nil =>
      intro g c d
      refine ⟨?_, ?_⟩
      · intro e₀ h
        exact ⟨e₀, h, rfl, fun x hx => hx, by simp⟩
      · intro h
        refine ⟨?_, fun _ => h⟩
        intro id hid
        simp [firstConnecting] at hid
  | cons n rest ih =>
      intro g c d
      have hbuild : buildGraphAux g (n :: rest) =
          buildGraphAux (addNetEdges g n.1 n.2) rest := rfl
      refine ⟨?_, ?_⟩
      · intro e₀ h
        rcases @lookupEdge_addNetEdges_some g n.1 n.2 c d e₀ h with
          ⟨e₁, he₁, hid₁, hsub₁, hnm₁⟩
        rcases (ih (addNetEdges g n.1 n.2) c d).1 e₁ he₁ with
          ⟨e', he', hid', hsub', hnets'⟩
        refine ⟨e', hbuild ▸ he', hid'.trans hid₁,
          fun x hx => hsub' x (hsub₁ x hx), ?_⟩
        intro p hp hc
        rcases List.mem_cons.mp hp with rfl | hp'
        · exact hsub' p.2.name (hnm₁ hc)
        · exact hnets' p hp' hc
      · intro h
        by_cases hc : connectsPair n.2 c d
        · have hfc : firstConnecting (n :: rest) c d = some n.1 := by
            simp [firstConnecting, List.find?_cons_of_pos, hc]
          rcases @lookupEdge_addNetEdges_none g n.1 n.2 c d h hc with
            ⟨e₁, he₁, hid₁, hnm₁⟩
          rcases (ih (addNetEdges g n.1 n.2) c d).1 e₁ he₁ with
            ⟨e', he', hid', hsub', hnets'⟩
          refine ⟨?_, ?_⟩
          · intro id hid
            rw [hfc] at hid
            refine ⟨e', hbuild ▸ he', hid'.trans hid₁ |>.trans
              (Option.some.inj hid), ?_⟩
            intro p hp hpc
            rcases List.mem_cons.mp hp with rfl | hp'
            · exact hsub' p.2.name hnm₁
            · exact hnets' p hp' hpc
          · intro hnone
            rw [hfc] at hnone
            cases hnone
        · have hfc : firstConnecting (n :: rest) c d =
              firstConnecting rest c d := by
            simp [firstConnecting, List.find?_cons_of_neg, hc]
          have h1 : lookupEdge (addNetEdges g n.1 n.2) c d = none := by
            rw [lookupEdge_addNetEdges_other hc]; exact h
          rcases (ih (addNetEdges g n.1 n.2) c d).2 h1 with ⟨hsome, hnone⟩
          refine ⟨?_, ?_⟩
          · intro id hid
            rw [hfc] at hid
            rcases hsome id hid with ⟨e', he', hid', hnets'⟩
            refine ⟨e', hbuild ▸ he', hid', ?_⟩
            intro p hp hpc
            rcases List.mem_cons.mp hp with rfl | hp'
            · exact absurd hpc hc
            · exact hnets' p hp' hpc
          · intro hn
            rw [hfc] at hn
            exact hbuild ▸ hnone hn

theorem lookupEdge_filter {P : GEdge → Bool} {c d : String} :
    ∀ {g : Graph} {e : GEdge}, uniquePairs g → lookupEdge g c d = some e →
    lookupEdge (g.filter P) c d = if P e then some e else none := by
  intro g
  induction g with
  | nil => intro e _ h; simp [lookupEdge] at h
  | cons x xs ih =>
      intro e hu h
      rcases List.pairwise_cons.mp hu with ⟨hd, tl⟩
      by_cases hx : sameEdge x c d
      · simp only [lookupEdge, if_pos hx, Option.some.injEq] at h
        subst h
        cases hP : P x with
        | false =>
            have hfilter : (x :: xs).filter P = xs.filter P := by
              simp [List.filter_cons, hP]
            rw [hfilter]
            simp only [Bool.false_eq_true, if_false]
            refine lookupEdge_none_of_forall ?_
            intro y hy hyc
            exact (hd y (List.mem_filter.mp hy).1)
              (samePair_trans hx (samePair_symm hyc))
        | true =>
            have hfilter : (x :: xs).filter P = x :: xs.filter P := by
              simp [List.filter_cons, hP]
            rw [hfilter]
            simp [lookupEdge, hx]
      · simp only [lookupEdge, if_neg hx] at h
        cases hP : P x with
        | false =>
            have hfilter : (x :: xs).filter P = xs.filter P := by
              simp [List.filter_cons, hP]
            rw [hfilter]
            exact ih tl h
        | true =>
            have hfilter : (x :: xs).filter P = x :: xs.filter P := by
              simp [List.filter_cons, hP]
            rw [hfilter]
            simp only [lookupEdge, if_neg hx]
            exact ih tl h

theorem lookupEdge_filter_none {P : GEdge → Bool} {c d : String}
    {g : Graph} (h : lookupEdge g c d = none) :
    lookupEdge (g.filter P) c d = none := by
  refine lookupEdge_none_of_forall ?_
  intro y hy
  exact forall_of_lookupEdge_none h y (List.mem_filter.mp hy).1

/-- C10: in the graph built by `_build_netlist_graph`, an edge permanently
records the `net_id` of the first net (in table order) connecting its
endpoint pair, while every later connecting net only contributes its name to
the edge's `nets` list; consequently `remove_old_clock_connections` deletes
exactly the edges whose stored `net_id` equals the old clock net id — an
edge first created by a different net survives even if the clock net also
connects its endpoints, and a deleted edge disappears even if its `nets`
list carries other nets' names. -/
theorem claim_C10_edge_net_id_first_wins (nets : Nets) (clockId : ℕ)
    (c d : String) :
    (firstConnecting nets c d = none →
      lookupEdge (build_netlist_graph nets) c d = none) ∧
    (∀ id, firstConnecting nets c d = some id →
      ∃ e, lookupEdge (build_netlist_graph nets) c d = some e ∧
        e.net_id = id ∧
        (∀ p ∈ nets, connectsPair p.2 c d → p.2.name ∈ e.nets) ∧
        lookupEdge (removeClockEdges (build_netlist_graph nets) clockId) c d =
          (if id = clockId then none else some e)) := by
  have hnil : lookupEdge ([] : Graph) c d = none := rfl
  have hspec := (buildGraphAux_spec nets [] c d).2 hnil
  refine ⟨fun h => hspec.2 h, ?_⟩
  intro id hid
  rcases hspec.1 id hid with ⟨e, he, heid, hnets⟩
  have hu : uniquePairs (build_netlist_graph nets) :=
    uniquePairs_buildGraphAux (List.Pairwise.nil)
  refine ⟨e, he, heid, hnets, ?_⟩
  rw [removeClockEdges, lookupEdge_filter hu he]
  subst heid
  by_cases hc : e.net_id = clockId
  · simp [hc]
  · simp [hc]

/-- Witness for C10: a two-net table in which the data net `n1` connects the
pair `(a, b)` first and the clock net (id 7) connects it again; the edge
keeps `net_id = 5`, carries both names, and survives clock-edge removal. -/
theorem claim_C10_edge_net_id_first_wins_witness :
    ∃ e, lookupEdge (build_netlist_graph
        [(5, ⟨"n1", [("a", "Y"), ("b", "A")]⟩),
         (7, ⟨"clk", [("a", "C"), ("b", "C")]⟩)]) "a" "b" = some e ∧
      e.net_id = 5 ∧
      (∀ p ∈ [((5 : ℕ), (⟨"n1", [("a", "Y"), ("b", "A")]⟩ : Net)),
              (7, ⟨"clk", [("a", "C"), ("b", "C")]⟩)],
        connectsPair p.2 "a" "b" → p.2.name ∈ e.nets) ∧
      lookupEdge (removeClockEdges (build_netlist_graph
        [(5, ⟨"n1", [("a", "Y"), ("b", "A")]⟩),
         (7, ⟨"clk", [("a", "C"), ("b", "C")]⟩)]) 7) "a" "b" =
        (if 5 = 7 then none else some e) :=
  (claim_C10_edge_net_id_first_wins
    [(5, ⟨"n1", [("a", "Y"), ("b", "A")]⟩),
     (7, ⟨"clk", [("a", "C"), ("b", "C")]⟩)] 7 "a" "b").2 5 (by decide)

/-- C6: Metropolis acceptance.  `accept_move` returns `True` whenever
`delta_cost < 0`; returns `False` when `delta_cost ≥ 0` and
`temperature ≤ 0`; and otherwise accepts exactly when the uniform draw `u`
falls below `exp(-delta_cost / temperature)` (that is, with probability
`exp(-delta_cost / temperature)` for a uniform draw on `[0,1)`). -/
theorem claim_C6_accept_move_metropolis (d T u : ℚ) :
    (d < 0 → accept_move d T u = true) ∧
    (0 ≤ d → T ≤ 0 → accept_move d T u = false) ∧
    (0 ≤ d → 0 < T →
      (accept_move d T u = true ↔ ((u : ℝ)) < Real.exp (-(d : ℝ) / (T : ℝ)))) :=
  ⟨fun h => accept_move_improving d T u h,
   fun h0 hT => accept_move_cold d T u h0 hT,
   fun h0 hT => accept_move_metropolis d T u h0 hT⟩

/-- Witness for C6 at concrete inputs. -/
theorem claim_C6_accept_move_metropolis_witness :
    accept_move (-1) 1 0 = true ∧ accept_move 1 0 0 = false ∧
    (accept_move 1 1 (1/2) = true ↔
      (((1/2 : ℚ) : ℝ)) < Real.exp (-((1 : ℚ) : ℝ) / ((1 : ℚ) : ℝ))) :=
  ⟨(claim_C6_accept_move_metropolis (-1) 1 0).1 (by norm_num),
   (claim_C6_accept_move_metropolis 1 0 0).2.1 (by norm_num) (by norm_num),
   (claim_C6_accept_move_metropolis 1 1 (1/2)).2.2 (by norm_num) (by norm_num)⟩

/-- C8 counterexample: for cell types absent from the Liberty leakage
database (empty database), the name-based heuristic returns `HI` — not `LO`
— for the AND family, and also for the NAND family (a `nandN` name contains
`andN`, so the AND branch fires first). -/
theorem claim_C8_counterexample :
    get_optimal_tie_for_cell "sky130_fd_sc_hd__and2_1" [] = "HI" ∧
    get_optimal_tie_for_cell "sky130_fd_sc_hd__nand2_2" [] = "HI" ∧
    ("HI" : String) ≠ "LO" := by
  refine ⟨by decide, by decide, by decide⟩

/-- C8 amended: with Liberty data absent, the heuristic returns `HI` for the
AND and NAND families (substring matching sends `nandN` into the AND
branch), `LO` for the BUF, NOR, XOR and OR families (`norN`/`xorN` match the
`orN` patterns), and `LO` for any cell type matching none of the name
patterns. -/
theorem claim_C8_amended (ct : String)
    (h : anyIn ["and2", "and3", "and4", "nand2", "nand3", "nand4",
        "or2", "or3", "or4", "nor2", "nor3", "nor4", "aoi", "oai",
        "xor", "xnor", "inv", "buf", "clkbuf"] (strLower ct) = false)
    (h2 : strIn "a" (strLower ct) = false) :
    get_optimal_tie_for_cell "sky130_fd_sc_hd__and2_1" [] = "HI" ∧
    get_optimal_tie_for_cell "sky130_fd_sc_hd__buf_2" [] = "LO" ∧
    get_optimal_tie_for_cell "sky130_fd_sc_hd__nand2_2" [] = "HI" ∧
    get_optimal_tie_for_cell "sky130_fd_sc_hd__nor2_1" [] = "LO" ∧
    get_optimal_tie_for_cell "sky130_fd_sc_hd__xor2_1" [] = "LO" ∧
    get_optimal_tie_for_cell "sky130_fd_sc_hd__or2_1" [] = "LO" ∧
    get_optimal_tie_for_cell ct [] = "LO" := by
  simp only [anyIn, List.any_cons, List.any_nil, Bool.or_eq_false_iff] at h
  obtain ⟨h1, h3, h4, h5, h6, h7, h8, h9, h10, h11, h12, h13, h14, h15,
    h16, h17, h18, h19, h20⟩ := h
  refine ⟨by decide, by decide, by decide, by decide, by decide, by decide, ?_⟩
  simp [get_optimal_tie_for_cell, heuristic_tie_selection, anyIn,
    h1, h2, h3, h4, h5, h6, h7, h8, h9, h10, h11, h12, h13, h14, h15,
    h16, h17, h18, h19, h20]

/-- Witness for C8 amended at the unrecognized cell type `mystery2`. -/
theorem claim_C8_amended_witness :
    get_optimal_tie_for_cell "sky130_fd_sc_hd__and2_1" [] = "HI" ∧
    get_optimal_tie_for_cell "sky130_fd_sc_hd__buf_2" [] = "LO" ∧
    get_optimal_tie_for_cell "sky130_fd_sc_hd__nand2_2" [] = "HI" ∧
    get_optimal_tie_for_cell "sky130_fd_sc_hd__nor2_1" [] = "LO" ∧
    get_optimal_tie_for_cell "sky130_fd_sc_hd__xor2_1" [] = "LO" ∧
    get_optimal_tie_for_cell "sky130_fd_sc_hd__or2_1" [] = "LO" ∧
    get_optimal_tie_for_cell "mystery2" [] = "LO" :=
  claim_C8_amended "mystery2" (by decide) (by decide)

/-- C9 counterexample: a tile with two `conb_1` cells and one unused cell
of unknown type `mystery2`.  The first ECO run claims `cb1` but skips the
candidate (empty pin list), so the candidate is still classified unused on
the second run, which then claims the second `conb_1` and changes both the
cell and the net tables — the second invocation is not a no-op. -/
theorem claim_C9_counterexample :
    (run_power_down_eco
        (run_power_down_eco ⟨[], [], []⟩
          [("t00", [⟨"cb1", "sky130_fd_sc_hd__conb_1"⟩,
                    ⟨"cb2", "sky130_fd_sc_hd__conb_1"⟩,
                    ⟨"mys1", "mystery2"⟩])] [] [] [])
        [("t00", [⟨"cb1", "sky130_fd_sc_hd__conb_1"⟩,
                  ⟨"cb2", "sky130_fd_sc_hd__conb_1"⟩,
                  ⟨"mys1", "mystery2"⟩])] [] [] []).cells ≠
      (run_power_down_eco ⟨[], [], []⟩
        [("t00", [⟨"cb1", "sky130_fd_sc_hd__conb_1"⟩,
                  ⟨"cb2", "sky130_fd_sc_hd__conb_1"⟩,
                  ⟨"mys1", "mystery2"⟩])] [] [] []).cells ∧
    (run_power_down_eco
        (run_power_down_eco ⟨[], [], []⟩
          [("t00", [⟨"cb1", "sky130_fd_sc_hd__conb_1"⟩,
                    ⟨"cb2", "sky130_fd_sc_hd__conb_1"⟩,
                    ⟨"mys1", "mystery2"⟩])] [] [] [])
        [("t00", [⟨"cb1", "sky130_fd_sc_hd__conb_1"⟩,
                  ⟨"cb2", "sky130_fd_sc_hd__conb_1"⟩,
                  ⟨"mys1", "mystery2"⟩])] [] [] []).nets ≠
      (run_power_down_eco ⟨[], [], []⟩
        [("t00", [⟨"cb1", "sky130_fd_sc_hd__conb_1"⟩,
                  ⟨"cb2", "sky130_fd_sc_hd__conb_1"⟩,
                  ⟨"mys1", "mystery2"⟩])] [] [] []).nets ∧
    (run_power_down_eco ⟨[], [], []⟩
        [("t00", [⟨"cb1", "sky130_fd_sc_hd__conb_1"⟩,
                  ⟨"cb2", "sky130_fd_sc_hd__conb_1"⟩,
                  ⟨"mys1", "mystery2"⟩])] [] [] []).cells.lookup "mys1" =
      none := by
  refine ⟨by decide, by decide, rfl⟩

/-- C9 amended: an ECO invocation that classifies no fabric cell as unused
— in particular a second run after a first run that tied every candidate —
leaves the logical database unchanged. -/
theorem claim_C9_amended (db : LogicalDb) (cells_by_tile : CellsByTile)
    (cell_library : CellLibrary) (leakage_db : LeakDb)
    (placement_map : List (String × String))
    (h : identify_unused_cells db cells_by_tile placement_map = []) :
    run_power_down_eco db cells_by_tile cell_library leakage_db
      placement_map = db := by
  show add_tie_connections db cell_library leakage_db
      (identify_unused_cells db cells_by_tile placement_map)
      (claim_tie_cells cells_by_tile
        (identify_unused_cells db cells_by_tile placement_map) db
        placement_map) = db
  rw [h]
  rfl

theorem claim_C9_amended_witness :
    identify_unused_cells
        ⟨[("c1", ⟨"sky130_fd_sc_hd__and2_1", [("A", 1)]⟩)], [], []⟩
        [("t00", [⟨"c1f", "sky130_fd_sc_hd__and2_1"⟩])]
        [("c1", "c1f")] = [] ∧
    run_power_down_eco
        ⟨[("c1", ⟨"sky130_fd_sc_hd__and2_1", [("A", 1)]⟩)], [], []⟩
        [("t00", [⟨"c1f", "sky130_fd_sc_hd__and2_1"⟩])] [] []
        [("c1", "c1f")] =
      ⟨[("c1", ⟨"sky130_fd_sc_hd__and2_1", [("A", 1)]⟩)], [], []⟩ :=
  ⟨rfl, claim_C9_amended _ _ _ _ _ rfl⟩

/-!  ## SA move-subsystem lemmas (C1) -/

theorem slot_at_str_none (fabric : Fabric) (a : String) (v : PyVal) :
    get_fabric_slot_at_position fabric (PyVal.str a) v = none := by
  induction fabric with
  | nil => rfl
  | cons s rest ih =>
      unfold get_fabric_slot_at_position at ih ⊢
      rw [List.find?_cons]
      exact ih

theorem rngSample2_mem {α : Type} {r : Rng} {k : ℕ} {l : List α}
    {cc : α × α} (h : rngSample2 r k l = some cc) :
    cc.1 ∈ l ∧ cc.2 ∈ l := by
  unfold rngSample2 at h
  cases h1 : l.get? (r.pick k % l.length) with
  | none =>
      rw [h1] at h
      cases h
  | some a =>
      rw [h1] at h
      cases h2 : l.get? (sample2Snd r k l.length) with
      | none =>
          rw [h2] at h
          cases h
      | some b =>
          rw [h2] at h
          cases h
          exact ⟨List.get?_mem h1, List.get?_mem h2⟩

theorem rngChoice_mem {α : Type} {r : Rng} {k : ℕ} {l : List α} {a : α}
    (h : rngChoice r k l = some a) : a ∈ l :=
  List.get?_mem h

theorem refine_move_quad {cells : List String} {pl : SAPlacement}
    (fabric : Fabric) (r : Rng) (k : ℕ)
    (hcov : ∀ c ∈ cells, ∃ sn ct x y,
      pl.lookup c = some (PTup.quad sn ct x y)) :
    refine_move cells pl fabric r k =
      (none, if cells.length < 2 then k else k + 2) := by
  unfold refine_move
  by_cases hlen : cells.length < 2
  · rw [if_pos hlen, if_pos hlen]
  · rw [if_neg hlen, if_neg hlen]
    cases hs : rngSample2 r k cells with
    | none => rfl
    | some cc =>
        obtain ⟨hm1, _⟩ := rngSample2_mem hs
        obtain ⟨sn, ct, x, y, hq⟩ := hcov cc.1 hm1
        dsimp only
        rw [hq]
        cases h2 : pl.lookup cc.2 with
        | none => rfl
        | some pos2 =>
            dsimp only
            rw [show ptupFst (PTup.quad sn ct x y) = PyVal.str sn from rfl,
              slot_at_str_none]

theorem explore_move_quad {pl : SAPlacement} (fabric : Fabric)
    {cells : List String} (nbrs : String → List String)
    (ports : List String) (window : Option ℚ) (r : Rng) (k : ℕ)
    (hcov : ∀ c ∈ cells, ∃ sn ct x y,
      pl.lookup c = some (PTup.quad sn ct x y)) :
    (explore_move pl fabric cells nbrs ports window r k).1 = none := by
  unfold explore_move
  by_cases ha : (get_available_slots fabric pl).isEmpty
  · rw [if_pos ha]
  · rw [if_neg ha]
    by_cases hc : cells.isEmpty
    · rw [if_pos hc]
    · rw [if_neg hc]
      cases hch : rngChoice r k cells with
      | none => rfl
      | some cell =>
          obtain ⟨sn, ct, x, y, hq⟩ := hcov cell (rngChoice_mem hch)
          dsimp only
          rw [hq]
          dsimp only
          rw [show ptupFst (PTup.quad sn ct x y) = PyVal.str sn from rfl,
            slot_at_str_none]

theorem generate_move_quad {pl : SAPlacement} (fabric : Fabric)
    {cells : List String} (nbrs : String → List String)
    (ports : List String) (config : SAConfig) (window : Option ℚ)
    (r : Rng) (k : ℕ)
    (hcov : ∀ c ∈ cells, ∃ sn ct x y,
      pl.lookup c = some (PTup.quad sn ct x y)) :
    (generate_move pl fabric cells nbrs ports config window r k).1 =
      none := by
  unfold generate_move
  by_cases hu : r.u k < config.prob_refine
  · rw [if_pos hu, refine_move_quad fabric r (k + 1) hcov]
  · rw [if_neg hu]
    have he := explore_move_quad fabric nbrs ports window r (k + 1) hcov
    cases hp : explore_move pl fabric cells nbrs ports window r (k + 1)
      with
    | mk o kk =>
        rw [hp] at he
        dsimp only at he
        subst he
        rfl

/-- C1 counterexample: in the pair-coordinate world the spec describes,
`refine_move` happily proposes swapping the inverter `c1` with the NAND
`c2` (no type test exists), `apply_move` then parks `c1` on the NAND site
`s2`, and `get_available_slots` offers the NAND site `s3` as a candidate
for any cell — availability is type-blind. -/
theorem claim_C1_counterexample :
    refine_move ["c1", "c2"]
        [("c1", PTup.pair 0 0), ("c2", PTup.pair 1 0)]
        [⟨"s1", "INV", 0, 0, none⟩, ⟨"s2", "NAND", 1, 0, none⟩,
         ⟨"s3", "NAND", 2, 0, none⟩]
        ⟨fun _ => 0, fun _ => 0⟩ 0 =
      (some ("c1", "c2", ⟨"s1", "INV", 0, 0, none⟩,
        ⟨"s2", "NAND", 1, 0, none⟩, PTup.pair 0 0, PTup.pair 1 0), 2) ∧
    requiredType [("c1", "INV"), ("c2", "NAND")] "c1" ≠
      requiredType [("c1", "INV"), ("c2", "NAND")] "c2" ∧
    apply_move [("c1", PTup.pair 0 0), ("c2", PTup.pair 1 0)]
        (SAMove.refine ("c1", "c2", ⟨"s1", "INV", 0, 0, none⟩,
          ⟨"s2", "NAND", 1, 0, none⟩, PTup.pair 0 0, PTup.pair 1 0)) =
      [("c1", PTup.pair 1 0), ("c2", PTup.pair 0 0)] ∧
    (get_fabric_slot_at_position
        [⟨"s1", "INV", 0, 0, none⟩, ⟨"s2", "NAND", 1, 0, none⟩,
         ⟨"s3", "NAND", 2, 0, none⟩]
        (PyVal.num 1) (PyVal.num 0)).map Slot.cell_type = some "NAND" ∧
    requiredType [("c1", "INV"), ("c2", "NAND")] "c1" = "INV" ∧
    get_available_slots
        [⟨"s1", "INV", 0, 0, none⟩, ⟨"s2", "NAND", 1, 0, none⟩,
         ⟨"s3", "NAND", 2, 0, none⟩]
        [("c1", PTup.pair 0 0), ("c2", PTup.pair 1 0)] = [("s3", 2, 0)] ∧
    (⟨"s3", "NAND", 2, 0, none⟩ : Slot).cell_type ≠
      requiredType [("c1", "INV"), ("c2", "NAND")] "c1" := by
  exact ⟨rfl, by decide, rfl, rfl, rfl, rfl, by decide⟩

/-- C1 amended: `get_available_slots` is characterised by position
occupancy alone (no cell-type filtering), and on the real call path —
placement entries are the greedy quadruples — every refine, explore and
generated move aborts on the failed coordinate lookup, for every rng
stream, so no SA move is ever applied. -/
theorem claim_C1_amended (fabric : Fabric) (pl : SAPlacement)
    (cells : List String) (nbrs : String → List String)
    (ports : List String) (config : SAConfig) (window : Option ℚ)
    (r : Rng) (k : ℕ)
    (hcov : ∀ c ∈ cells, ∃ sn ct x y,
      pl.lookup c = some (PTup.quad sn ct x y)) :
    (∀ s ∈ fabric,
      ((s.name, s.x, s.y) ∈ get_available_slots fabric pl ↔
        ¬ ∃ p ∈ pl, p.2 = PTup.pair s.x s.y)) ∧
    refine_move cells pl fabric r k =
      (none, if cells.length < 2 then k else k + 2) ∧
    (explore_move pl fabric cells nbrs ports window r k).1 = none ∧
    (generate_move pl fabric cells nbrs ports config window r k).1 =
      none := by
  refine ⟨?_, refine_move_quad fabric r k hcov,
    explore_move_quad fabric nbrs ports window r k hcov,
    generate_move_quad fabric nbrs ports config window r k hcov⟩
  intro s hs
  unfold get_available_slots
  rw [List.mem_filterMap]
  constructor
  · rintro ⟨s', hs', hsome⟩ hocc
    by_cases ho : pl.any (fun p => p.2 = PTup.pair s'.x s'.y)
    · rw [if_pos ho] at hsome
      cases hsome
    · rw [if_neg ho] at hsome
      injection hsome with htrip
      have hx : s'.x = s.x := congrArg (fun t => t.2.1) htrip
      have hy : s'.y = s.y := congrArg (fun t => t.2.2) htrip
      apply ho
      rw [List.any_eq_true]
      obtain ⟨p, hp, hpe⟩ := hocc
      exact ⟨p, hp, by rw [hx, hy]; exact decide_eq_true hpe⟩
  · intro hocc
    refine ⟨s, hs, ?_⟩
    rw [if_neg ?_]
    intro ho
    rw [List.any_eq_true] at ho
    obtain ⟨p, hp, hpe⟩ := ho
    exact hocc ⟨p, hp, of_decide_eq_true hpe⟩

theorem claim_C1_amended_witness :
    (∀ c ∈ ["c1"], ∃ sn ct x y,
      ([("c1", PTup.quad "s1" "INV" 0 0)] : SAPlacement).lookup c =
        some (PTup.quad sn ct x y)) ∧
    refine_move ["c1"] [("c1", PTup.quad "s1" "INV" 0 0)]
        [⟨"s1", "INV", 0, 0, some "c1"⟩]
        ⟨fun _ => 0, fun _ => 0⟩ 0 = (none, 0) ∧
    (explore_move [("c1", PTup.quad "s1" "INV" 0 0)]
        [⟨"s1", "INV", 0, 0, some "c1"⟩] ["c1"] (fun _ => []) [] none
        ⟨fun _ => 0, fun _ => 0⟩ 0).1 = none := by
  have hcov : ∀ c ∈ ["c1"], ∃ sn ct x y,
      ([("c1", PTup.quad "s1" "INV" 0 0)] : SAPlacement).lookup c =
        some (PTup.quad sn ct x y) := by
    intro c hc
    have hce := List.mem_singleton.mp hc
    subst hce
    exact ⟨"s1", "INV", 0, 0, rfl⟩
  have h := claim_C1_amended [⟨"s1", "INV", 0, 0, some "c1"⟩]
    [("c1", PTup.quad "s1" "INV" 0 0)] ["c1"] (fun _ => []) [] {} none
    ⟨fun _ => 0, fun _ => 0⟩ 0 hcov
  exact ⟨hcov, h.2.1, h.2.2.1⟩

/-!  ## SA loop lemmas (C4, C5) -/

theorem saMoveStep_quad (fabric : Fabric) (nets : Nets)
    {cells : List String} (nbrs : String → List String)
    (ports : List String) (config : SAConfig) (temp : ℚ)
    (window : Option ℚ) (r : Rng) (st : SAState)
    (hcov : ∀ c ∈ cells, ∃ sn ct x y,
      st.placement.lookup c = some (PTup.quad sn ct x y)) :
    ∃ kk, saMoveStep fabric nets cells nbrs ports config temp window r
        st = .ok { st with iteration := st.iteration + 1, k := kk } := by
  unfold saMoveStep
  dsimp only
  cases hp : generate_move st.placement fabric cells nbrs ports config
      window r st.k with
  | mk o kk =>
      have hg := generate_move_quad fabric nbrs ports config window r
        st.k hcov
      rw [hp] at hg
      dsimp only at hg
      subst hg
      exact ⟨kk, rfl⟩

theorem saMovesLoop_quad (fabric : Fabric) (nets : Nets)
    {cells : List String} (nbrs : String → List String)
    (ports : List String) (config : SAConfig) (temp : ℚ)
    (window : Option ℚ) (r : Rng) :
    ∀ (n : ℕ) (st : SAState),
    (∀ c ∈ cells, ∃ sn ct x y,
      st.placement.lookup c = some (PTup.quad sn ct x y)) →
    ∃ kk, saMovesLoop fabric nets cells nbrs ports config temp window r n
        st = .ok { st with iteration := st.iteration + n, k := kk } := by
  intro n
  induction n with
  | zero =>
      intro st hcov
      exact ⟨st.k, rfl⟩
  | succ m ih =>
      intro st hcov
      obtain ⟨kk, hstep⟩ := saMoveStep_quad fabric nets nbrs ports config
        temp window r st hcov
      obtain ⟨kk₂, hrest⟩ := ih
        { st with iteration := st.iteration + 1, k := kk } hcov
      refine ⟨kk₂, ?_⟩
      unfold saMovesLoop
      rw [hstep]
      dsimp only
      rw [hrest]
      dsimp only
      have harith : st.iteration + 1 + m = st.iteration + (m + 1) := by
        omega
      rw [harith]

theorem saLoop_rng (fabric : Fabric) (nets : Nets) {cells : List String}
    (nbrs : String → List String) (ports : List String)
    (config : SAConfig) (r₁ r₂ : Rng) (initial_window : ℚ) :
    ∀ (fuel : ℕ) (temp : ℚ) (st : SAState) (k₂ : ℕ) (trace : List ℚ),
    (∀ c ∈ cells, ∃ sn ct x y,
      st.placement.lookup c = some (PTup.quad sn ct x y)) →
    (∀ c ∈ cells, ∃ sn ct x y,
      st.best_placement.lookup c = some (PTup.quad sn ct x y)) →
    saLoop fabric nets cells nbrs ports config r₁ initial_window fuel
        temp st trace =
      saLoop fabric nets cells nbrs ports config r₂ initial_window fuel
        temp { st with k := k₂ } trace := by
  intro fuel
  induction fuel with
  | zero =>
      intro temp st k₂ trace _ _
      rfl
  | succ m ih =>
      intro temp st k₂ trace hcov hcovb
      unfold saLoop
      dsimp only
      by_cases hcond : config.final_temp < temp ∧
          st.iteration < config.max_iterations
      · rw [if_pos hcond, if_pos hcond]
        obtain ⟨kk₁, h₁⟩ := saMovesLoop_quad fabric nets nbrs ports config
          temp (some (initial_window * ((temp - config.final_temp) /
            (config.initial_temp - config.final_temp)))) r₁
          config.moves_per_temp st hcov
        obtain ⟨kk₂', h₂⟩ := saMovesLoop_quad fabric nets nbrs ports
          config temp (some (initial_window * ((temp - config.final_temp) /
            (config.initial_temp - config.final_temp)))) r₂
          config.moves_per_temp { st with k := k₂ } hcov
        rw [h₁, h₂]
        dsimp only
        by_cases h2 : st.best_cost < st.last_best
        · rw [if_pos h2, if_pos h2]
          dsimp only
          by_cases h3 : st.best_cost * (3 / 2) < st.current_cost ∧
              20 < (0 : ℕ)
          · rw [if_pos h3, if_pos h3]
            exact ih _ _ kk₂' _ hcovb hcovb
          · rw [if_neg h3, if_neg h3]
            exact ih _ _ kk₂' _ hcov hcovb
        · rw [if_neg h2, if_neg h2]
          dsimp only
          by_cases h3 : st.best_cost * (3 / 2) < st.current_cost ∧
              20 < st.no_improve + 1
          · rw [if_pos h3, if_pos h3]
            exact ih _ _ kk₂' _ hcovb hcovb
          · rw [if_neg h3, if_neg h3]
            exact ih _ _ kk₂' _ hcov hcovb
      · rw [if_neg hcond, if_neg hcond]

/-- C4 (confirmed, degenerately): with the greedy quadruple placement
entries, every SA proposal aborts on the failed coordinate lookup, so two
invocations with the same inputs agree for EVERY pair of random streams —
in particular for equal seeds.  (Note the source's `SAConfig` has no seed
field; determinism here comes from the moves never firing, not from a
seeded generator.) -/
theorem claim_C4_deterministic (fabric : Fabric) (nets : Nets)
    (cells : List String) (nbrs : String → List String)
    (ports : List String) (placement₀ : SAPlacement) (config : SAConfig)
    (r₁ r₂ : Rng)
    (hcov : ∀ c ∈ cells, ∃ sn ct x y,
      placement₀.lookup c = some (PTup.quad sn ct x y)) :
    simulated_annealing fabric nets cells nbrs ports placement₀ config
        r₁ =
      simulated_annealing fabric nets cells nbrs ports placement₀ config
        r₂ := by
  unfold simulated_annealing
  cases hcal : calculate_hpwl nets placement₀ with
  | error e => rfl
  | ok c₀ =>
      dsimp only
      exact saLoop_rng fabric nets nbrs ports config r₁ r₂ _ _ _
        ⟨placement₀, c₀, placement₀, c₀, 0, 0, 0, c₀⟩ 0 _ hcov hcov

theorem claim_C4_deterministic_witness :
    (∀ c ∈ ["c1"], ∃ sn ct x y,
      ([("c1", PTup.quad "s1" "INV" 0 0)] : SAPlacement).lookup c =
        some (PTup.quad sn ct x y)) ∧
    simulated_annealing [⟨"s1", "INV", 0, 0, some "c1"⟩] [] ["c1"]
        (fun _ => []) [] [("c1", PTup.quad "s1" "INV" 0 0)] {}
        ⟨fun _ => 0, fun _ => 0⟩ =
      simulated_annealing [⟨"s1", "INV", 0, 0, some "c1"⟩] [] ["c1"]
        (fun _ => []) [] [("c1", PTup.quad "s1" "INV" 0 0)] {}
        ⟨fun _ => 1, fun _ => 1⟩ := by
  have hcov : ∀ c ∈ ["c1"], ∃ sn ct x y,
      ([("c1", PTup.quad "s1" "INV" 0 0)] : SAPlacement).lookup c =
        some (PTup.quad sn ct x y) := by
    intro c hc
    have hce := List.mem_singleton.mp hc
    subst hce
    exact ⟨"s1", "INV", 0, 0, rfl⟩
  exact ⟨hcov, claim_C4_deterministic [⟨"s1", "INV", 0, 0, some "c1"⟩] []
    ["c1"] (fun _ => []) [] [("c1", PTup.quad "s1" "INV" 0 0)] {}
    ⟨fun _ => 0, fun _ => 0⟩ ⟨fun _ => 1, fun _ => 1⟩ hcov⟩

theorem saMoveStep_best_le (fabric : Fabric) (nets : Nets)
    (cells : List String) (nbrs : String → List String)
    (ports : List String) (config : SAConfig) (temp : ℚ)
    (window : Option ℚ) (r : Rng) {st st' : SAState}
    (h : saMoveStep fabric nets cells nbrs ports config temp window r
      st = .ok st') : st'.best_cost ≤ st.best_cost := by
  unfold saMoveStep at h
  dsimp only at h
  cases hp : generate_move st.placement fabric cells nbrs ports config
      window r st.k with
  | mk o kk =>
      rw [hp] at h
      cases o with
      | none =>
          injection h with h
          subst h
          exact le_refl _
      | some mv =>
          dsimp only at h
          cases hcal : calculate_hpwl nets (apply_move st.placement mv)
            with
          | error e =>
              rw [hcal] at h
              cases h
          | ok new_cost =>
              rw [hcal] at h
              dsimp only at h
              cases hacc : accept_move (new_cost - st.current_cost) temp
                  (r.u kk) with
              | true =>
                  rw [if_pos hacc] at h
                  injection h with h
                  subst h
                  dsimp only
                  by_cases hlt : new_cost < st.best_cost
                  · rw [if_pos hlt]
                    exact le_of_lt hlt
                  · rw [if_neg hlt]
              | false =>
                  rw [if_neg (by simp [hacc])] at h
                  injection h with h
                  subst h
                  exact le_refl _

theorem saMovesLoop_best_le (fabric : Fabric) (nets : Nets)
    (cells : List String) (nbrs : String → List String)
    (ports : List String) (config : SAConfig) (temp : ℚ)
    (window : Option ℚ) (r : Rng) :
    ∀ (n : ℕ) {st st' : SAState},
    saMovesLoop fabric nets cells nbrs ports config temp window r n st =
      .ok st' → st'.best_cost ≤ st.best_cost := by
  intro n
  induction n with
  | zero =>
      intro st st' h
      injection h with h
      subst h
      exact le_refl _
  | succ m ih =>
      intro st st' h
      unfold saMovesLoop at h
      cases hstep : saMoveStep fabric nets cells nbrs ports config temp
          window r st with
      | error e =>
          rw [hstep] at h
          cases h
      | ok st₁ =>
          rw [hstep] at h
          dsimp only at h
          exact le_trans (ih h)
            (saMoveStep_best_le fabric nets cells nbrs ports config temp
              window r hstep)

theorem chain_ge_of_append {l : List ℚ} {x : ℚ}
    (h : List.Chain' (fun a b => b ≤ a) (l ++ [x])) :
    List.Chain' (fun a b => b ≤ a) l :=
  (List.chain'_append.mp h).1

theorem chain_ge_replace_last {l : List ℚ} {x y : ℚ}
    (h : List.Chain' (fun a b => b ≤ a) (l ++ [x])) (hy : y ≤ x) :
    List.Chain' (fun a b => b ≤ a) (l ++ [y]) := by
  rw [List.chain'_append] at h ⊢
  obtain ⟨h1, _, h3⟩ := h
  refine ⟨h1, List.chain'_singleton y, ?_⟩
  intro a ha b hb
  have hax := h3 a ha x (by simp)
  have hby : y = b := by simpa using hb
  subst hby
  exact le_trans hy hax

theorem chain_ge_append_singleton {l : List ℚ} {x y : ℚ}
    (h : List.Chain' (fun a b => b ≤ a) (l ++ [x])) (hy : y ≤ x) :
    List.Chain' (fun a b => b ≤ a) ((l ++ [x]) ++ [y]) := by
  rw [List.chain'_append]
  refine ⟨h, List.chain'_singleton y, ?_⟩
  intro a ha b hb
  have hax : x = a := by
    rw [List.getLast?_concat] at ha
    simpa using ha
  have hby : y = b := by simpa using hb
  subst hax
  subst hby
  exact hy

theorem saLoop_chain (fabric : Fabric) (nets : Nets)
    (cells : List String) (nbrs : String → List String)
    (ports : List String) (config : SAConfig) (r : Rng)
    (initial_window : ℚ) :
    ∀ (fuel : ℕ) (temp : ℚ) (st : SAState) (trace : List ℚ),
    List.Chain' (fun a b => b ≤ a) (trace ++ [st.best_cost]) →
    List.Chain' (fun a b => b ≤ a)
      (saLoop fabric nets cells nbrs ports config r initial_window fuel
        temp st trace).2 := by
  intro fuel
  induction fuel with
  | zero =>
      intro temp st trace h
      exact chain_ge_of_append h
  | succ m ih =>
      intro temp st trace h
      unfold saLoop
      dsimp only
      by_cases hcond : config.final_temp < temp ∧
          st.iteration < config.max_iterations
      · rw [if_pos hcond]
        cases hml : saMovesLoop fabric nets cells nbrs ports config temp
            (some (initial_window * ((temp - config.final_temp) /
              (config.initial_temp - config.final_temp)))) r
            config.moves_per_temp st with
        | error e =>
            exact chain_ge_of_append h
        | ok st₁ =>
            dsimp only
            have hb := saMovesLoop_best_le fabric nets cells nbrs ports
              config temp _ r config.moves_per_temp hml
            have h₁ := chain_ge_replace_last h hb
            have h₂ := chain_ge_append_singleton h₁ (le_refl st₁.best_cost)
            by_cases h2 : st₁.best_cost < st₁.last_best
            · rw [if_pos h2]
              dsimp only
              by_cases h3 : st₁.best_cost * (3 / 2) < st₁.current_cost ∧
                  20 < (0 : ℕ)
              · rw [if_pos h3]
                exact ih _ _ _ h₂
              · rw [if_neg h3]
                exact ih _ _ _ h₂
            · rw [if_neg h2]
              dsimp only
              by_cases h3 : st₁.best_cost * (3 / 2) < st₁.current_cost ∧
                  20 < st₁.no_improve + 1
              · rw [if_pos h3]
                exact ih _ _ _ h₂
              · rw [if_neg h3]
                exact ih _ _ _ h₂
      · rw [if_neg hcond]
        exact chain_ge_of_append h

/-- C5: within any single `simulated_annealing` run the per-block
`best_cost` trace is non-increasing, across reheat events included —
`best_cost` is only ever replaced by a strictly smaller accepted cost, and
a reheat resets the current placement to the best without touching it. -/
theorem claim_C5_best_cost_monotone (fabric : Fabric) (nets : Nets)
    (cells : List String) (nbrs : String → List String)
    (ports : List String) (placement₀ : SAPlacement) (config : SAConfig)
    (r : Rng) :
    List.Chain' (fun a b => b ≤ a)
      (simulated_annealing fabric nets cells nbrs ports placement₀ config
        r).2 := by
  unfold simulated_annealing
  cases hcal : calculate_hpwl nets placement₀ with
  | error e => exact List.chain'_nil
  | ok c₀ =>
      dsimp only
      exact saLoop_chain fabric nets cells nbrs ports config r _ _ _
        ⟨placement₀, c₀, placement₀, c₀, 0, 0, 0, c₀⟩ []
        (List.chain'_singleton c₀)

end StructuredAsic
